import Mathlib

/-!
Shallow embedding of `src/chromeos-config/cros_config_host/libcros_config_host_json.py`
(classes `DeviceConfigJson` and `CrosConfigJson`).

A parsed JSON document node is modelled by `Value`; a device config entry is a
JSON object, i.e. an association list of string keys to values (`Dict`), in
document order.  Python runtime errors raised by the code (KeyError, TypeError,
AttributeError) are modelled by `Except PyErr`.
-/

namespace CrosConfig

/-- A parsed JSON value, as produced by `json.loads`: object keys are strings
and object entries keep document order. -/
inductive Value where
  | null : Value
  | bool : Bool → Value
  | int : Int → Value
  | str : String → Value
  | list : List Value → Value
  | dict : List (String × Value) → Value

/-- A device config entry: one JSON object. -/
abbrev Dict := List (String × Value)

/-- Python runtime errors raised by the embedded code. -/
inductive PyErr where
  | keyError : PyErr
  | typeError : PyErr
  | attributeError : PyErr
deriving Repr, DecidableEq

/-- First-match lookup in an association list with string keys
(Python `d[k]` / `k in d` on JSON objects). -/
def slookup {α : Type} (l : List (String × α)) (k : String) : Option α :=
  (l.find? (fun p => p.1 = k)).map (fun p => p.2)

mutual
/-- Python `repr` of a parsed JSON value (escape sequences inside strings are
not modelled; the inputs of interest contain no quote characters). -/
def pyRepr : Value → String
  | .null => "None"
  | .bool b => if b then "True" else "False"
  | .int n => toString n
  | .str s => "'" ++ s ++ "'"
  | .list l => "[" ++ pyReprList l ++ "]"
  | .dict d => "\x7b" ++ pyReprDict d ++ "\x7d"

/-- Comma-joined `repr`s of list elements. -/
def pyReprList : List Value → String
  | [] => ""
  | [v] => pyRepr v
  | v :: w :: rest => pyRepr v ++ ", " ++ pyReprList (w :: rest)

/-- Comma-joined `repr`s of dict items. -/
def pyReprDict : List (String × Value) → String
  | [] => ""
  | [(k, v)] => "'" ++ k ++ "': " ++ pyRepr v
  | (k, v) :: w :: rest => "'" ++ k ++ "': " ++ pyRepr v ++ ", " ++ pyReprDict (w :: rest)
end

/-- Python `str` of a parsed JSON value (`str` on a string is the identity;
on containers it agrees with `repr`). -/
def pyStr : Value → String
  | .str s => s
  | v => pyRepr v

/-- Python truthiness of a parsed JSON value. -/
def truthy : Value → Bool
  | .null => false
  | .bool b => b
  | .int n => n != 0
  | .str s => s != ""
  | .list l => !l.isEmpty
  | .dict d => !d.isEmpty

/-- Truthiness of an optional value; `none` models Python `None`. -/
def truthyOpt : Option Value → Bool
  | none => false
  | some v => truthy v

/-- Python `a or b` for an optional `a` (used for the `... or ''` /
`... or []` defaults in the firmware resolver). -/
def pyOr (a : Option Value) (b : Value) : Value :=
  match a with
  | some v => if truthy v then v else b
  | none => b

/-- `needle` is a prefix of `hay` (character lists). -/
def listPrefixOf : List Char → List Char → Bool
  | [], _ => true
  | _ :: _, [] => false
  | a :: as, b :: bs => a = b && listPrefixOf as bs

/-- `needle` occurs as a contiguous substring of `hay` (character lists). -/
def listSubstr (needle : List Char) : List Char → Bool
  | [] => listPrefixOf needle []
  | c :: t => listPrefixOf needle (c :: t) || listSubstr needle t

/-- Python `tok in s` for strings: substring containment. -/
def strContains (hay tok : String) : Bool :=
  listSubstr tok.data hay.data

/-- Python `tok in v` for the values the walked document can hold:
key membership on objects, substring on strings, element equality on lists;
`in` on numbers, booleans and `None` raises `TypeError`. -/
def pyContains : Value → String → Except PyErr Bool
  | .dict d, tok => .ok (slookup d tok).isSome
  | .str s, tok => .ok (strContains s tok)
  | .list l, tok =>
    .ok (l.any (fun e => match e with | .str s => s = tok | _ => false))
  | .int _, _ => .error .typeError
  | .bool _, _ => .error .typeError
  | .null, _ => .error .typeError

/-- Python `v[tok]` with a string subscript: object lookup; on any other
value a string subscript raises `TypeError`. -/
def pySubscript : Value → String → Except PyErr Value
  | .dict d, tok =>
    match slookup d tok with
    | some v => .ok v
    | none => .error .keyError
  | _, _ => .error .typeError

/-- Splits a character list on a separator; mirrors Python `str.split(sep)`
(the empty input yields `[[]]`, i.e. `[""]`). -/
def splitOnChar (sep : Char) : List Char → List (List Char)
  | [] => [[]]
  | ch :: t =>
    match splitOnChar sep t with
    | [] => [[]]
    | h :: rest => if ch = sep then [] :: h :: rest else (ch :: h) :: rest

/-- The path tokens of `DeviceConfigJson.GetProperties`: Python
`path[1:].split('/')`. -/
def pathTokens (path : String) : List String :=
  (splitOnChar '/' (path.data.drop 1)).map (fun cs => String.mk cs)

/-- The token walk of `DeviceConfigJson.GetProperties` (source lines 41-45):
`if path_token in result: result = result[path_token] else: return {}`. -/
def walkProps : Value → List String → Except PyErr Value
  | result, [] => .ok result
  | result, tok :: rest => do
    let mem ← pyContains result tok
    if mem then do
      let r ← pySubscript result tok
      walkProps r rest
    else
      .ok (Value.dict [])

/-- `DeviceConfigJson.GetProperties` (source lines 38-46). -/
def GetProperties (c : Dict) (path : String) : Except PyErr Value :=
  if path = "/" then .ok (Value.dict c)
  else walkProps (Value.dict c) (pathTokens path)

/-- `DeviceConfigJson.GetName` (source lines 35-36): `str(self._config['name'])`;
a missing `name` key raises `KeyError`. -/
def GetName (c : Dict) : Except PyErr String :=
  match slookup c "name" with
  | some v => .ok (pyStr v)
  | none => .error .keyError

/-- `DeviceConfigJson.GetValue` (source lines 54-60): returns the stored value
(`str` applied to a string is the identity) or `None` when the key is absent. -/
def GetValue (source : Value) (name : String) : Except PyErr (Option Value) := do
  let mem ← pyContains source name
  if mem then do
    let val ← pySubscript source name
    .ok (some val)
  else
    .ok none

/-- `DeviceConfigJson.GetFirmwareConfig` (source lines 70-74). -/
def GetFirmwareConfig (c : Dict) : Except PyErr Value := do
  let firmware ← GetProperties c "/firmware"
  if truthy firmware then do
    let nf ← GetValue firmware "no-firmware"
    if truthyOpt nf then .ok (Value.dict [])
    else .ok firmware
  else
    .ok (Value.dict [])

/-- Modelled from the spec: the `FirmwareInfo` record of
`libcros_config_host_base` (not under `src/`), whose shape is pinned by the
constructor call at source lines 175-178 and the `_replace` call at 190-194.
Fields that the source may fill with either a Python string or a raw JSON
value hold a `Value`; fields that may also hold Python `None` are `Option`. -/
structure FirmwareInfo where
  model : Option Value
  shared_model : Value
  key_id : Option Value
  have_image : Bool
  bios_build_target : Option Value
  ec_build_target : Option Value
  main_image_uri : Value
  main_rw_image_uri : Value
  ec_image_uri : Value
  pd_image_uri : Value
  extra : Value
  create_bios_rw_image : Bool
  tools : Value
  sig_id : Option Value

/-- Python `==` on the values that can reach a `firmware_info` dict key
(hashable scalars; `True == 1` in Python).  Containers are unhashable and
never become keys, so their comparison (used by no reachable insert) is
immaterial and returns `false`. -/
def scalarKeyEq : Value → Value → Bool
  | .null, .null => true
  | .str a, .str b => a = b
  | .bool a, .bool b => a = b
  | .int a, .int b => a = b
  | .bool a, .int b => (if a then (1 : Int) else 0) = b
  | .int a, .bool b => a = (if b then (1 : Int) else 0)
  | _, _ => false

/-- Python `==` on `firmware_info` dict keys (`none` models `None`). -/
def keyEq (a b : Option Value) : Bool :=
  match a, b with
  | none, none => true
  | some x, some y => scalarKeyEq x y
  | _, _ => false

/-- Whether a value may be used as a Python dict key (hashable). -/
def hashableKey : Option Value → Bool
  | none => true
  | some (.list _) => false
  | some (.dict _) => false
  | some _ => true

/-- A `firmware_info` map: an insertion-ordered dict, keyed by a device name
(string) or a derived signature id (possibly `None`). -/
abbrev FwMap := List (Option Value × FirmwareInfo)

/-- Python ordered-dict assignment `d[k] = v`: replace the value at the first
key equal to `k` (keeping the stored key and its position), else append. -/
def odInsert : FwMap → Option Value → FirmwareInfo → FwMap
  | [], k, v => [(k, v)]
  | p :: t, k, v => if keyEq p.1 k then (p.1, v) :: t else p :: odInsert t k v

/-- Dict lookup by Python key equality. -/
def fwLookup (m : FwMap) (k : Option Value) : Option FirmwareInfo :=
  (m.find? (fun p => keyEq p.1 k)).map (fun p => p.2)

/-- Python `set.add`: membership-preserving insertion. -/
def addIfAbsent (l : List String) (x : String) : List String :=
  if x ∈ l then l else l ++ [x]

/-- Replace the element at index `i` by `f` applied to it (in-place mutation
of one object in the `self._configs` list). -/
def modifyIdx {α : Type} : List α → Nat → (α → α) → List α
  | [], _, _ => []
  | a :: l, 0, f => f a :: l
  | a :: l, n + 1, f => a :: modifyIdx l n f

/-- The resolver's mutable state during `CrosConfigJson.__init__`
(source lines 130-131 plus the per-device `firmware_info` dicts):
`maps` holds each device's `firmware_info` (same index as the config list),
`fw_by_model` is the descriptor-string → shared-model dict, and `processed`
the set of identity strings already handled. -/
structure RState where
  maps : List FwMap
  fw_by_model : List (String × Value)
  processed : List String

/-- The straight-line results of source lines 136-178 (everything computed for
one device before its `firmware_info` is touched). -/
structure StepPlan where
  fw_by_model : List (String × Value)
  processed : List String
  name : String
  info : FirmwareInfo
  sic : Bool

/-- `fw.get` requires a mapping; on any other value the attribute access
raises `AttributeError`. -/
def asMapping : Value → Except PyErr (List (String × Value))
  | .dict d => .ok d
  | _ => .error .attributeError

/-- Source lines 138-142: `if fw_str not in fw_by_model:
fw_by_model[fw_str] = fw.get('name', config.GetName())`.  The attribute
access `fw.get` requires a mapping, and the default argument
`config.GetName()` is evaluated whether or not `fw` has a `name` key. -/
def updateFwByModel (c : Dict) (fw : Value) (fbm0 : List (String × Value)) :
    Except PyErr (List (String × Value)) :=
  if (slookup fbm0 (pyStr fw)).isSome then pure fbm0
  else do
    let fwd ← asMapping fw
    let n0 ← GetName c
    pure (fbm0 ++ [(pyStr fw, (slookup fwd "name").getD (Value.str n0))])

/-- Source lines 146-151: the coreboot/ec build targets, both `None` when the
`/firmware/build-targets` subtree is falsy. -/
def readBuildTargets (c : Dict) : Except PyErr (Option Value × Option Value) := do
  let build_config ← GetProperties c "/firmware/build-targets"
  if truthy build_config then do
    let b ← GetValue build_config "coreboot"
    let e ← GetValue build_config "ec"
    pure (b, e)
  else
    pure (none, none)

/-- Source lines 169-173: the base record's `sig_id` and the updated
`processed` set — the sentinel string and no marking on the
sig-id-in-customization-id branch, else the `signature-id` value with the
identity marked processed. -/
def deriveSigId (fw_signer_config : Value) (sic : Bool)
    (processed0 : List String) (identity : String) :
    Except PyErr (Option Value × List String) :=
  if sic then
    pure (some (Value.str "sig-id-in-customization-id"), processed0)
  else do
    let sid ← GetValue fw_signer_config "signature-id"
    pure (sid, addIfAbsent processed0 identity)

/-- Source lines 136-178: update `fw_by_model`, read build targets, image
URIs and signing config, and build the base `FirmwareInfo` for one device. -/
def planConfig (c : Dict) (identity : String) (fw : Value)
    (fbm0 : List (String × Value)) (processed0 : List String) :
    Except PyErr StepPlan := do
  let fw_str := pyStr fw
  let fbm ← updateFwByModel c fw fbm0
  let shared_model ←
    match slookup fbm fw_str with
    | some v => Except.ok v
    | none => Except.error PyErr.keyError
  let bt ← readBuildTargets c
  let main_image_uri := pyOr (← GetValue fw "main-image") (Value.str "")
  let main_rw_image_uri := pyOr (← GetValue fw "main-rw-image") (Value.str "")
  let ec_image_uri := pyOr (← GetValue fw "ec-image") (Value.str "")
  let pd_image_uri := pyOr (← GetValue fw "pd-image") (Value.str "")
  let extra := pyOr (← GetValue fw "extra") (Value.list [])
  let tools := pyOr (← GetValue fw "tools") (Value.list [])
  let fw_signer_config ← GetProperties c "/firmware-signing"
  let key_id ← GetValue fw_signer_config "key-id"
  let sig_in_customization_id ← GetValue fw_signer_config "sig-id-in-customization-id"
  let name ← GetName c
  let sp ← deriveSigId fw_signer_config (truthyOpt sig_in_customization_id)
    processed0 identity
  Except.ok
    { fw_by_model := fbm
      processed := sp.2
      name := name
      sic := truthyOpt sig_in_customization_id
      info :=
        { model := some (Value.str name)
          shared_model := shared_model
          key_id := key_id
          have_image := true
          bios_build_target := bt.1
          ec_build_target := bt.2
          main_image_uri := main_image_uri
          main_rw_image_uri := main_rw_image_uri
          ec_image_uri := ec_image_uri
          pd_image_uri := pd_image_uri
          extra := extra
          create_bios_rw_image := false
          tools := tools
          sig_id := sp.1 } }

/-- One iteration of the whitelabel rescan (source lines 182-194) for the
device at index `j`: on a name match, mark its identity processed, re-read
its signer subtree and store an overwritten deep copy of `info` keyed by its
own `signature-id` (the dict assignment checks the key is hashable). -/
def wlStep (cs : List Dict) (name : String) (info : FirmwareInfo)
    (s : RState) (j : Nat) : Except PyErr RState :=
  match cs.get? j with
  | none => .ok s
  | some wc => do
    let wname ← GetName wc
    if wname = name then do
      let wl_idv ← GetProperties wc "/identity"
      let processed := addIfAbsent s.processed (pyStr wl_idv)
      let fw_signer_config ← GetProperties wc "/firmware-signing"
      let wl_key_id ← GetValue fw_signer_config "key-id"
      let wl_sig_id ← GetValue fw_signer_config "signature-id"
      let wl_fw_info :=
        { info with
            model := wl_sig_id
            key_id := wl_key_id
            have_image := false
            sig_id := wl_sig_id }
      if hashableKey wl_sig_id then
        .ok { maps := modifyIdx s.maps j (fun m => odInsert m wl_sig_id wl_fw_info)
              fw_by_model := s.fw_by_model
              processed := processed }
      else
        .error .typeError
    else
      .ok s

/-- Source lines 136-194 for one device that passed the guard: build the base
`FirmwareInfo`, store it under the device name, and on the
sig-id-in-customization-id branch rescan every config by name. -/
def processConfig (cs : List Dict) (c : Dict) (i : Nat) (identity : String)
    (fw : Value) (s : RState) : Except PyErr RState := do
  let p ← planConfig c identity fw s.fw_by_model s.processed
  let s1 : RState :=
    { maps := modifyIdx s.maps i (fun m => odInsert m (some (Value.str p.name)) p.info)
      fw_by_model := p.fw_by_model
      processed := p.processed }
  if p.sic then
    (List.range cs.length).foldlM (wlStep cs p.name p.info) s1
  else
    pure s1

/-- One iteration of the resolver loop (source lines 132-194) for the device
at index `i`: compute its firmware config and identity string, and process it
unless the firmware config is falsy or the identity was already handled. -/
def stepDevice (cs : List Dict) (s : RState) (i : Nat) : Except PyErr RState :=
  match cs.get? i with
  | none => .ok s
  | some c => do
    let fw ← GetFirmwareConfig c
    let idv ← GetProperties c "/identity"
    let identity := pyStr idv
    if truthy fw ∧ identity ∉ s.processed then
      processConfig cs c i identity fw s
    else
      .ok s

/-- The resolver pass over a list of device indices. -/
def runSteps (cs : List Dict) (s : RState) (idxs : List Nat) : Except PyErr RState :=
  idxs.foldlM (stepDevice cs) s

/-- The state before the resolver runs: one empty `firmware_info` per device,
empty descriptor groups, nothing processed. -/
def initState (cs : List Dict) : RState :=
  { maps := cs.map (fun _ => []), fw_by_model := [], processed := [] }

/-- The sort key of source line 125: `str(x.GetProperties('/identity'))`
(`GetProperties` of a config dict at `/identity` cannot raise). -/
def identityKey (c : Dict) : String :=
  match GetProperties c "/identity" with
  | .ok v => pyStr v
  | .error _ => ""

/-- Insert into a list sorted by `identityKey` (stable). -/
def insertSorted (c : Dict) : List Dict → List Dict
  | [] => [c]
  | d :: t => if identityKey c ≤ identityKey d then c :: d :: t else d :: insertSorted c t

/-- The `sorted(self._configs, key=...)` call of source line 125, whose result
the source discards. -/
def sortedByIdentity (cs : List Dict) : List Dict :=
  cs.foldr insertSorted []

/-- `CrosConfigJson.__init__` after JSON parsing (source lines 121-194):
wrap each device entry, compute the unstored sort, then run the resolver
once over the configs in document order. -/
def crosConfigInit (cs : List Dict) : Except PyErr RState :=
  let _unstored := sortedByIdentity cs
  runSteps cs (initState cs) (List.range cs.length)

/-- `CrosConfigJson.GetDeviceConfigs` (source lines 196-197): the wrapped
device configs, each pairing its document node with its `firmware_info`. -/
def GetDeviceConfigs (cs : List Dict) (s : RState) : List (Dict × FwMap) :=
  cs.zip s.maps

/-- The value of a single-segment property path: the subtree at key `k`,
or the empty mapping when absent. -/
def prop1 (c : Dict) (k : String) : Value :=
  (slookup c k).getD (Value.dict [])

/-- The `GetProperties` walk stays within mappings: every consumed token is
looked up in a dict. -/
def dictWalk : Value → List String → Bool
  | _, [] => true
  | .dict d, tok :: rest =>
    match slookup d tok with
    | some v => dictWalk v rest
    | none => true
  | _, _ :: _ => false

/-- Some token along the `GetProperties` walk is absent from the mapping
being walked (with every earlier token found in a mapping). -/
def hitsAbsent : Value → List String → Bool
  | _, [] => false
  | .dict d, tok :: rest =>
    match slookup d tok with
    | some v => hitsAbsent v rest
    | none => true
  | _, _ :: _ => false

/-- A dummy record used only as a lookup default in concrete evaluations. -/
def noInfo : FirmwareInfo :=
  { model := none, shared_model := Value.dict [], key_id := none
    have_image := false, bios_build_target := none, ec_build_target := none
    main_image_uri := Value.str "", main_rw_image_uri := Value.str ""
    ec_image_uri := Value.str "", pd_image_uri := Value.str ""
    extra := Value.list [], create_bios_rw_image := false
    tools := Value.list [], sig_id := none }

/-- The state a successful construction produces (dummy on failure); used to
name concrete resolved states in evaluations. -/
def resolvedState (cs : List Dict) : RState :=
  match crosConfigInit cs with
  | .ok s => s
  | .error _ => { maps := [], fw_by_model := [], processed := [] }

/-- A whitelabel trigger named `B` (no signature-id of its own). -/
def devT2 : Dict :=
  [("name", Value.str "B"), ("identity", Value.dict [("t", Value.str "2")]),
   ("firmware", Value.dict [("main-image", Value.str "imgT2")]),
   ("firmware-signing", Value.dict
     [("sig-id-in-customization-id", Value.bool true)])]

/-- A device named `B` with its own signature-id and the shared descriptor. -/
def devD1 : Dict :=
  [("name", Value.str "B"), ("identity", Value.dict [("t", Value.str "3")]),
   ("firmware", Value.dict [("main-image", Value.str "img1")]),
   ("firmware-signing", Value.dict [("signature-id", Value.str "s1")])]

/-- A device named `C` with the same firmware descriptor as `devD1`. -/
def devD2 : Dict :=
  [("name", Value.str "C"), ("identity", Value.dict [("t", Value.str "4")]),
   ("firmware", Value.dict [("main-image", Value.str "img1")])]

/-- A device named `C` that first registers the shared descriptor. -/
def devE : Dict :=
  [("name", Value.str "C"), ("identity", Value.dict [("t", Value.str "0")]),
   ("firmware", Value.dict [("main-image", Value.str "img1")])]

/-- Simple same-descriptor devices for concrete evaluations. -/
def devX : Dict :=
  [("name", Value.str "x"), ("identity", Value.dict [("i", Value.str "1")]),
   ("firmware", Value.dict [("main-image", Value.str "m")])]

/-- See `devX`. -/
def devY : Dict :=
  [("name", Value.str "y"), ("identity", Value.dict [("i", Value.str "2")]),
   ("firmware", Value.dict [("main-image", Value.str "m")])]

/-- A device whose firmware subtree carries an explicit `name`. -/
def devW : Dict :=
  [("name", Value.str "dev"),
   ("firmware", Value.dict
     [("name", Value.str "fwname"), ("main-image", Value.str "m")])]

/-- The whitelabel-received entry of `devD1` in the `[devT2, devD1, devD2]`
document. -/
def entD1 : FirmwareInfo :=
  (fwLookup ((resolvedState [devT2, devD1, devD2]).maps.getD 1 [])
    (some (Value.str "s1"))).getD noInfo

/-- The base entry of `devD2` in the `[devT2, devD1, devD2]` document. -/
def entD2 : FirmwareInfo :=
  (fwLookup ((resolvedState [devT2, devD1, devD2]).maps.getD 2 [])
    (some (Value.str "C"))).getD noInfo

/-- The base entry of `devX` in the `[devX, devY]` document. -/
def entX : FirmwareInfo :=
  (fwLookup ((resolvedState [devX, devY]).maps.getD 0 [])
    (some (Value.str "x"))).getD noInfo

/-- The base entry of `devY` in the `[devX, devY]` document. -/
def entY : FirmwareInfo :=
  (fwLookup ((resolvedState [devX, devY]).maps.getD 1 [])
    (some (Value.str "y"))).getD noInfo

/-- The whitelabel-received entry of `devD1` in the `[devE, devT2, devD1]`
document. -/
def entD1G : FirmwareInfo :=
  (fwLookup ((resolvedState [devE, devT2, devD1]).maps.getD 2 [])
    (some (Value.str "s1"))).getD noInfo

/-- The base entry of `devW` in the single-device document. -/
def entW : FirmwareInfo :=
  (fwLookup ((resolvedState [devW]).maps.getD 0 [])
    (some (Value.str "dev"))).getD noInfo

/-- A key occurs (by Python equality) among a map's keys. -/
def memK (m : FwMap) (k : Option Value) : Bool :=
  m.any (fun p => keyEq p.1 k)

/-- Replay a list of dict assignments onto a map. -/
def patch (m : FwMap) (L : List (Option Value × FirmwareInfo)) : FwMap :=
  L.foldl (fun a p => odInsert a p.1 p.2) m

/-- The insertions a resolver run performs, as (device index, key, record)
triples in execution order. -/
abbrev Script := List (Nat × Option Value × FirmwareInfo)

/-- Replay a script onto a list of per-device maps. -/
def applyScript (M : List FwMap) (σ : Script) : List FwMap :=
  σ.foldl (fun M e => modifyIdx M e.1 (fun m => odInsert m e.2.1 e.2.2)) M

/-- The insertions a script performs at one device index, in order. -/
def sel (j : Nat) (σ : Script) : List (Option Value × FirmwareInfo) :=
  (σ.filter (fun e => e.1 = j)).map (fun e => e.2)

@[simp]
theorem ebind_ok {α β : Type} (a : α) (f : α → Except PyErr β) :
    (Except.ok a : Except PyErr α) >>= f = f a := rfl

@[simp]
theorem ebind_error {α β : Type} (e : PyErr) (f : α → Except PyErr β) :
    (Except.error e : Except PyErr α) >>= f = Except.error e := rfl

theorem pyContains_dict (d : List (String × Value)) (tok : String) :
    pyContains (Value.dict d) tok = .ok (slookup d tok).isSome := rfl

theorem walkProps_dictWalk :
    ∀ (toks : List String) (v : Value), dictWalk v toks = true →
      ∃ r, walkProps v toks = .ok r := by
  intro toks
  induction toks with
  | nil => intro v _; exact ⟨v, rfl⟩
  | cons t rest ih =>
    intro v hw
    cases v with
    | dict d =>
      rw [show walkProps (Value.dict d) (t :: rest) =
        (pyContains (Value.dict d) t) >>= (fun mem =>
          if mem then (pySubscript (Value.dict d) t) >>= (fun r => walkProps r rest)
          else .ok (Value.dict [])) from rfl, pyContains_dict]
      cases h : slookup d t with
      | some w =>
        have hw' : dictWalk w rest = true := by
          simpa [dictWalk, h] using hw
        obtain ⟨r, hr⟩ := ih w hw'
        refine ⟨r, ?_⟩
        simp [h, pySubscript, hr]
      | none =>
        refine ⟨Value.dict [], ?_⟩
        simp [h]
    | null => simp [dictWalk] at hw
    | bool b => simp [dictWalk] at hw
    | int n => simp [dictWalk] at hw
    | str s => simp [dictWalk] at hw
    | list l => simp [dictWalk] at hw

theorem walkProps_hitsAbsent :
    ∀ (toks : List String) (v : Value), hitsAbsent v toks = true →
      walkProps v toks = .ok (Value.dict []) := by
  intro toks
  induction toks with
  | nil => intro v hw; simp [hitsAbsent] at hw
  | cons t rest ih =>
    intro v hw
    cases v with
    | dict d =>
      rw [show walkProps (Value.dict d) (t :: rest) =
        (pyContains (Value.dict d) t) >>= (fun mem =>
          if mem then (pySubscript (Value.dict d) t) >>= (fun r => walkProps r rest)
          else .ok (Value.dict [])) from rfl, pyContains_dict]
      cases h : slookup d t with
      | some w =>
        have hw' : hitsAbsent w rest = true := by
          simpa [hitsAbsent, h] using hw
        simp [h, pySubscript, ih w hw']
      | none => simp [h]
    | null => simp [hitsAbsent] at hw
    | bool b => simp [hitsAbsent] at hw
    | int n => simp [hitsAbsent] at hw
    | str s => simp [hitsAbsent] at hw
    | list l => simp [hitsAbsent] at hw

/-- C4: `GetProperties` returns the node itself for path `/` and returns the
empty mapping as soon as a token is absent, and it never raises — amended:
the no-raise guarantee holds when the walk only meets mappings (`dictWalk`);
on a non-mapping intermediate value `GetProperties` can raise `TypeError`
(see the counterexample). -/
theorem claim_C4 (c : Dict) (path : String) :
    GetProperties c "/" = .ok (Value.dict c) ∧
    (dictWalk (Value.dict c) (pathTokens path) = true →
      ∃ r, GetProperties c path = .ok r) ∧
    (hitsAbsent (Value.dict c) (pathTokens path) = true → path ≠ "/" →
      GetProperties c path = .ok (Value.dict [])) := by
  refine ⟨by simp [GetProperties], ?_, ?_⟩
  · intro hw
    by_cases hp : path = "/"
    · exact ⟨Value.dict c, by simp [GetProperties, hp]⟩
    · obtain ⟨r, hr⟩ := walkProps_dictWalk (pathTokens path) (Value.dict c) hw
      exact ⟨r, by simp [GetProperties, hp, hr]⟩
  · intro hw hp
    have := walkProps_hitsAbsent (pathTokens path) (Value.dict c) hw
    simp [GetProperties, hp, this]

/-- C4 counterexample: on node `{'a': 'xyz'}` and path `/a/y` the walk
descends into the string `'xyz'`, the substring test `'y' in 'xyz'` passes,
and the subscript `'xyz'['y']` raises `TypeError` — so `GetProperties` can
raise, refuting the claim as stated. -/
theorem claim_C4_cex :
    GetProperties [("a", Value.str "xyz")] "/a/y" = .error PyErr.typeError := by
  rfl

/-- C4 witness: the amended theorem applied to node `{'a': {'b': 'v'}}`. -/
theorem claim_C4_witness :
    dictWalk (Value.dict [("a", Value.dict [("b", Value.str "v")])])
      (pathTokens "/a/b") = true ∧
    hitsAbsent (Value.dict [("a", Value.dict [("b", Value.str "v")])])
      (pathTokens "/a/q") = true ∧
    (∃ r, GetProperties [("a", Value.dict [("b", Value.str "v")])] "/a/b" = .ok r) ∧
    GetProperties [("a", Value.dict [("b", Value.str "v")])] "/a/q" =
      .ok (Value.dict []) := by
  refine ⟨by rfl, by rfl, ?_, ?_⟩
  · exact (claim_C4 [("a", Value.dict [("b", Value.str "v")])] "/a/b").2.1 (by rfl)
  · exact (claim_C4 [("a", Value.dict [("b", Value.str "v")])] "/a/q").2.2 (by rfl)
      (by decide)

theorem ebind_err_of {α β : Type} (x : Except PyErr α) (f : α → Except PyErr β)
    (hf : ∀ a, ∃ e, f a = .error e) : ∃ e, x >>= f = .error e := by
  cases x with
  | ok a => simpa using hf a
  | error e => exact ⟨e, rfl⟩

theorem walkProps_single (d : Dict) (k : String) :
    walkProps (Value.dict d) [k] = .ok (prop1 d k) := by
  rw [show walkProps (Value.dict d) [k] =
    (pyContains (Value.dict d) k) >>= (fun mem =>
      if mem then (pySubscript (Value.dict d) k) >>= (fun r => walkProps r [])
      else .ok (Value.dict [])) from rfl, pyContains_dict]
  cases h : slookup d k with
  | some w => simp [h, pySubscript, walkProps, prop1]
  | none => simp [h, prop1]

theorem GetProperties_one (c : Dict) (path k : String) (h1 : path ≠ "/")
    (h2 : pathTokens path = [k]) :
    GetProperties c path = .ok (prop1 c k) := by
  rw [GetProperties, if_neg h1, h2, walkProps_single]

theorem GetProperties_identity (c : Dict) :
    GetProperties c "/identity" = .ok (prop1 c "identity") :=
  GetProperties_one c "/identity" "identity" (by decide) rfl

theorem GetProperties_signer (c : Dict) :
    GetProperties c "/firmware-signing" = .ok (prop1 c "firmware-signing") :=
  GetProperties_one c "/firmware-signing" "firmware-signing" (by decide) rfl

theorem identityKey_eq (c : Dict) :
    identityKey c = pyStr (prop1 c "identity") := by
  rw [identityKey, GetProperties_identity]

theorem GetName_none (c : Dict) (h : slookup c "name" = none) :
    GetName c = .error .keyError := by
  rw [GetName, h]

theorem foldlM_preserve {σ α : Type} (P : σ → Prop) (f : σ → α → Except PyErr σ)
    (hf : ∀ s a s', f s a = .ok s' → P s → P s') :
    ∀ (l : List α) (s s' : σ), l.foldlM f s = .ok s' → P s → P s' := by
  intro l
  induction l with
  | nil =>
    intro s s' h hp
    simp only [List.foldlM] at h
    cases h; exact hp
  | cons a t ih =>
    intro s s' h hp
    simp only [List.foldlM] at h
    cases hx : f s a with
    | error e => rw [hx] at h; exact absurd h (by simp)
    | ok s1 => rw [hx] at h; exact ih s1 s' h (hf s a s1 hx hp)

theorem foldlM_rel {σ α : Type} (R : σ → σ → Prop) (hrefl : ∀ s, R s s)
    (htrans : ∀ a b c, R a b → R b c → R a c) (f : σ → α → Except PyErr σ)
    (hf : ∀ s a s', f s a = .ok s' → R s s') :
    ∀ (l : List α) (s s' : σ), l.foldlM f s = .ok s' → R s s' := by
  intro l
  induction l with
  | nil =>
    intro s s' h
    simp only [List.foldlM] at h
    cases h; exact hrefl s
  | cons a t ih =>
    intro s s' h
    simp only [List.foldlM] at h
    cases hx : f s a with
    | error e => rw [hx] at h; exact absurd h (by simp)
    | ok s1 => rw [hx] at h; exact htrans _ _ _ (hf s a s1 hx) (ih s1 s' h)

theorem runSteps_cons (cs : List Dict) (s : RState) (i : Nat) (idxs : List Nat) :
    runSteps cs s (i :: idxs) =
      (stepDevice cs s i) >>= (fun s1 => runSteps cs s1 idxs) := by
  simp only [runSteps, List.foldlM]

theorem runSteps_append (cs : List Dict) (s : RState) (l1 l2 : List Nat) :
    runSteps cs s (l1 ++ l2) =
      (runSteps cs s l1) >>= (fun s1 => runSteps cs s1 l2) := by
  induction l1 generalizing s with
  | nil => simp [runSteps, List.foldlM]
  | cons i t ih =>
    rw [List.cons_append, runSteps_cons, runSteps_cons]
    cases stepDevice cs s i with
    | ok s1 => simp only [ebind_ok]; exact ih s1
    | error e => simp

theorem runSteps_ok_split (cs : List Dict) (s s2 : RState) (l1 l2 : List Nat)
    (h : runSteps cs s (l1 ++ l2) = .ok s2) :
    ∃ s1, runSteps cs s l1 = .ok s1 ∧ runSteps cs s1 l2 = .ok s2 := by
  rw [runSteps_append] at h
  cases hx : runSteps cs s l1 with
  | error e => rw [hx] at h; exact absurd h (by simp)
  | ok s1 => rw [hx] at h; exact ⟨s1, rfl, h⟩

theorem range_split (i n : Nat) (h : i < n) :
    List.range n =
      List.range i ++ i :: ((List.range (n - i - 1)).map (fun t => i + 1 + t)) := by
  have h1 : n = (i + 1) + (n - i - 1) := by omega
  conv_lhs => rw [h1]
  rw [List.range_add, List.range_succ]
  simp [List.append_assoc]

theorem modifyIdx_length {α : Type} :
    ∀ (l : List α) (i : Nat) (f : α → α), (modifyIdx l i f).length = l.length := by
  intro l
  induction l with
  | nil => intro i f; rfl
  | cons a t ih =>
    intro i f
    cases i with
    | zero => rfl
    | succ n => simp [modifyIdx, ih]

theorem get?_modifyIdx_self {α : Type} :
    ∀ (l : List α) (i : Nat) (f : α → α),
      (modifyIdx l i f).get? i = (l.get? i).map f := by
  intro l
  induction l with
  | nil => intro i f; rfl
  | cons a t ih =>
    intro i f
    cases i with
    | zero => rfl
    | succ n => simpa [modifyIdx] using ih n f

theorem get?_modifyIdx_other {α : Type} :
    ∀ (l : List α) (i j : Nat) (f : α → α), j ≠ i →
      (modifyIdx l i f).get? j = l.get? j := by
  intro l
  induction l with
  | nil => intro i j f _; rfl
  | cons a t ih =>
    intro i j f hne
    cases i with
    | zero =>
      cases j with
      | zero => exact absurd rfl hne
      | succ m => rfl
    | succ n =>
      cases j with
      | zero => rfl
      | succ m => simpa [modifyIdx] using ih n m f (fun hh => hne (by rw [hh]))

theorem addIfAbsent_sub (l : List String) (x : String) :
    l ⊆ addIfAbsent l x := by
  intro a ha
  unfold addIfAbsent
  split
  · exact ha
  · exact List.mem_append_left _ ha

theorem mem_addIfAbsent (l : List String) (x : String) :
    x ∈ addIfAbsent l x := by
  unfold addIfAbsent
  split
  · assumption
  · exact List.mem_append_right _ (by simp)

theorem mem_addIfAbsent_elim (l : List String) (x y : String)
    (h : y ∈ addIfAbsent l x) : y ∈ l ∨ y = x := by
  unfold addIfAbsent at h
  by_cases hx : x ∈ l
  · rw [if_pos hx] at h; exact Or.inl h
  · rw [if_neg hx] at h
    rcases List.mem_append.mp h with h1 | h1
    · exact Or.inl h1
    · simp at h1; exact Or.inr h1

theorem slookup_append {α : Type} (l1 l2 : List (String × α)) (k : String) :
    slookup (l1 ++ l2) k = (slookup l1 k).or (slookup l2 k) := by
  simp only [slookup, List.find?_append]
  cases List.find? (fun p => p.1 = k) l1 <;> simp

theorem asMapping_ok (fw : Value) (d : List (String × Value))
    (h : asMapping fw = .ok d) : fw = Value.dict d := by
  cases fw <;> simp [asMapping] at h
  rw [h]

theorem odInsert_ne_nil (m : FwMap) (k : Option Value) (v : FirmwareInfo) :
    odInsert m k v ≠ [] := by
  cases m with
  | nil => simp [odInsert]
  | cons p t =>
    simp only [odInsert]
    split <;> simp

theorem keyEq_refl_of_hashable (k : Option Value) (h : hashableKey k = true) :
    keyEq k k = true := by
  cases k with
  | none => rfl
  | some v => cases v <;> simp_all [hashableKey, keyEq, scalarKeyEq]

theorem mem_odInsert (m : FwMap) (k k' : Option Value) (v e : FirmwareInfo)
    (hh : hashableKey k = true) (hm : (k', e) ∈ odInsert m k v) :
    (k', e) ∈ m ∨ (keyEq k' k = true ∧ e = v) := by
  induction m with
  | nil =>
    simp [odInsert] at hm
    exact Or.inr ⟨hm.1 ▸ keyEq_refl_of_hashable k hh, hm.2⟩
  | cons p t ih =>
    simp only [odInsert] at hm
    by_cases hk : keyEq p.1 k = true
    · rw [if_pos hk] at hm
      rcases List.mem_cons.mp hm with h1 | h1
      · have h2 : k' = p.1 ∧ e = v := Prod.mk.inj_iff.mp h1
        exact Or.inr ⟨h2.1 ▸ hk, h2.2⟩
      · exact Or.inl (List.mem_cons_of_mem _ h1)
    · rw [if_neg hk] at hm
      rcases List.mem_cons.mp hm with h1 | h1
      · exact Or.inl (h1 ▸ List.mem_cons_self _ _)
      · rcases ih h1 with h2 | h2
        · exact Or.inl (List.mem_cons_of_mem _ h2)
        · exact Or.inr h2

theorem fwLookup_odInsert_self (m : FwMap) (k : Option Value) (v : FirmwareInfo)
    (hh : hashableKey k = true) :
    fwLookup (odInsert m k v) k = some v := by
  induction m with
  | nil => simp [odInsert, fwLookup, List.find?, keyEq_refl_of_hashable k hh]
  | cons p t ih =>
    simp only [odInsert]
    by_cases hk : keyEq p.1 k = true
    · simp [fwLookup, List.find?, hk]
    · simp only [if_neg hk]
      simpa [fwLookup, List.find?, hk] using ih

/-- Inversion of one whitelabel-rescan iteration: either the index is out of
range or the name does not match (state unchanged), or the sibling's identity
is marked and the overwritten copy of `info` is stored under its own
`signature-id`. -/
theorem wlStep_elim (cs : List Dict) (name : String) (info : FirmwareInfo)
    (s : RState) (j : Nat) (s' : RState)
    (h : wlStep cs name info s j = .ok s') :
    s' = s ∨ ∃ wc kid sid,
      cs.get? j = some wc ∧ GetName wc = .ok name ∧
      GetValue (prop1 wc "firmware-signing") "key-id" = .ok kid ∧
      GetValue (prop1 wc "firmware-signing") "signature-id" = .ok sid ∧
      hashableKey sid = true ∧
      s'.maps = modifyIdx s.maps j (fun m => odInsert m sid
        { info with model := sid, key_id := kid, have_image := false, sig_id := sid }) ∧
      s'.fw_by_model = s.fw_by_model ∧
      s'.processed = addIfAbsent s.processed (identityKey wc) := by
  cases hj : cs.get? j with
  | none =>
    simp only [wlStep, hj] at h
    exact Or.inl (by cases h; rfl)
  | some wc =>
    simp only [wlStep, hj] at h
    cases hn : GetName wc with
    | error e => rw [hn] at h; exact absurd h (by simp)
    | ok wname =>
      rw [hn] at h
      simp only [ebind_ok] at h
      by_cases hm : wname = name
      · rw [if_pos hm] at h
        rw [GetProperties_identity wc] at h
        simp only [ebind_ok] at h
        rw [GetProperties_signer wc] at h
        simp only [ebind_ok] at h
        cases hk : GetValue (prop1 wc "firmware-signing") "key-id" with
        | error e => rw [hk] at h; exact absurd h (by simp)
        | ok kid =>
          rw [hk] at h
          simp only [ebind_ok] at h
          cases hs : GetValue (prop1 wc "firmware-signing") "signature-id" with
          | error e => rw [hs] at h; exact absurd h (by simp)
          | ok sid =>
            rw [hs] at h
            simp only [ebind_ok] at h
            by_cases hh : hashableKey sid = true
            · rw [if_pos hh] at h
              cases h
              exact Or.inr ⟨wc, kid, sid, rfl, hm ▸ hn, hk, hs, hh,
                rfl, rfl, by rw [identityKey_eq]⟩
            · rw [if_neg hh] at h; exact absurd h (by simp)
      · rw [if_neg hm] at h; exact Or.inl (by cases h; rfl)

theorem updateFwByModel_elim (c : Dict) (fw : Value)
    (fbm0 fbm : List (String × Value))
    (h : updateFwByModel c fw fbm0 = .ok fbm) :
    ((slookup fbm0 (pyStr fw)).isSome ∧ fbm = fbm0) ∨
      (slookup fbm0 (pyStr fw) = none ∧ ∃ fwd n0, fw = Value.dict fwd ∧
        GetName c = .ok n0 ∧
        fbm = fbm0 ++ [(pyStr fw, (slookup fwd "name").getD (Value.str n0))]) := by
  unfold updateFwByModel at h
  by_cases hb : (slookup fbm0 (pyStr fw)).isSome
  · rw [if_pos hb] at h
    cases h
    exact Or.inl ⟨hb, rfl⟩
  · rw [if_neg hb] at h
    cases ha : asMapping fw with
    | error e => rw [ha] at h; exact absurd h (by simp)
    | ok fwd =>
      rw [ha] at h
      simp only [ebind_ok] at h
      cases hn : GetName c with
      | error e => rw [hn] at h; exact absurd h (by simp)
      | ok n0 =>
        rw [hn] at h
        simp only [ebind_ok] at h
        cases h
        exact Or.inr ⟨Option.not_isSome_iff_eq_none.mp hb,
          fwd, n0, asMapping_ok fw fwd ha, rfl, rfl⟩

theorem deriveSigId_elim (fsc : Value) (sic : Bool) (p0 : List String)
    (identity : String) (sp : Option Value × List String)
    (h : deriveSigId fsc sic p0 identity = .ok sp) :
    (sic = true ∧ sp = (some (Value.str "sig-id-in-customization-id"), p0)) ∨
      (sic = false ∧ ∃ sid, GetValue fsc "signature-id" = .ok sid ∧
        sp = (sid, addIfAbsent p0 identity)) := by
  unfold deriveSigId at h
  cases sic with
  | true =>
    simp only [if_pos] at h
    cases h
    exact Or.inl ⟨rfl, rfl⟩
  | false =>
    simp only [Bool.false_eq_true, if_neg] at h
    cases hs : GetValue fsc "signature-id" with
    | error e => rw [hs] at h; exact absurd h (by simp)
    | ok sid =>
      rw [hs] at h
      simp only [ebind_ok] at h
      cases h
      exact Or.inr ⟨rfl, sid, rfl, rfl⟩

/-- Inversion of the straight-line planning block (source lines 136-178). -/
theorem planConfig_shape (c : Dict) (identity : String) (fw : Value)
    (fbm0 : List (String × Value)) (p0 : List String) (p : StepPlan)
    (h : planConfig c identity fw fbm0 p0 = .ok p) :
    GetName c = .ok p.name ∧
    ((slookup fbm0 (pyStr fw)).isSome ∧ p.fw_by_model = fbm0 ∨
      (slookup fbm0 (pyStr fw) = none ∧ ∃ fwd, fw = Value.dict fwd ∧
        p.fw_by_model =
          fbm0 ++ [(pyStr fw, (slookup fwd "name").getD (Value.str p.name))])) ∧
    ((p.sic = true ∧ p.processed = p0) ∨
      (p.sic = false ∧ p.processed = addIfAbsent p0 identity)) ∧
    p.info.have_image = true ∧
    p.info.model = some (Value.str p.name) ∧
    slookup p.fw_by_model (pyStr fw) = some p.info.shared_model ∧
    (∀ mi, GetValue fw "main-image" = .ok mi →
      p.info.main_image_uri = pyOr mi (Value.str "")) ∧
    (∀ ei, GetValue fw "ec-image" = .ok ei →
      p.info.ec_image_uri = pyOr ei (Value.str "")) ∧
    (∀ sv, GetValue (prop1 c "firmware-signing") "sig-id-in-customization-id" = .ok sv →
      p.sic = truthyOpt sv) := by
  simp only [planConfig] at h
  cases hfbm : updateFwByModel c fw fbm0 with
  | error e => rw [hfbm] at h; exact absurd h (by simp)
  | ok fbm =>
  rw [hfbm] at h
  simp only [ebind_ok] at h
  cases hsm : slookup fbm (pyStr fw) with
  | none => rw [hsm] at h; exact absurd h (by simp)
  | some sm =>
  rw [hsm] at h
  simp only [ebind_ok] at h
  cases hbt : readBuildTargets c with
  | error e => rw [hbt] at h; exact absurd h (by simp)
  | ok bt =>
  rw [hbt] at h
  simp only [ebind_ok] at h
  cases hmi : GetValue fw "main-image" with
  | error e => rw [hmi] at h; exact absurd h (by simp)
  | ok mi =>
  rw [hmi] at h
  simp only [ebind_ok] at h
  cases hmrw : GetValue fw "main-rw-image" with
  | error e => rw [hmrw] at h; exact absurd h (by simp)
  | ok mrw =>
  rw [hmrw] at h
  simp only [ebind_ok] at h
  cases hei : GetValue fw "ec-image" with
  | error e => rw [hei] at h; exact absurd h (by simp)
  | ok ei =>
  rw [hei] at h
  simp only [ebind_ok] at h
  cases hpd : GetValue fw "pd-image" with
  | error e => rw [hpd] at h; exact absurd h (by simp)
  | ok pd =>
  rw [hpd] at h
  simp only [ebind_ok] at h
  cases hex : GetValue fw "extra" with
  | error e => rw [hex] at h; exact absurd h (by simp)
  | ok ex =>
  rw [hex] at h
  simp only [ebind_ok] at h
  cases hto : GetValue fw "tools" with
  | error e => rw [hto] at h; exact absurd h (by simp)
  | ok tl =>
  rw [hto] at h
  simp only [ebind_ok] at h
  rw [GetProperties_signer c] at h
  simp only [ebind_ok] at h
  cases hki : GetValue (prop1 c "firmware-signing") "key-id" with
  | error e => rw [hki] at h; exact absurd h (by simp)
  | ok ki =>
  rw [hki] at h
  simp only [ebind_ok] at h
  cases hsv : GetValue (prop1 c "firmware-signing") "sig-id-in-customization-id" with
  | error e => rw [hsv] at h; exact absurd h (by simp)
  | ok sv =>
  rw [hsv] at h
  simp only [ebind_ok] at h
  cases hnm : GetName c with
  | error e => rw [hnm] at h; exact absurd h (by simp)
  | ok nm =>
  rw [hnm] at h
  simp only [ebind_ok] at h
  cases hsp : deriveSigId (prop1 c "firmware-signing") (truthyOpt sv) p0 identity with
  | error e => rw [hsp] at h; exact absurd h (by simp)
  | ok sp =>
  rw [hsp] at h
  simp only [ebind_ok] at h
  cases h
  refine ⟨rfl, ?_, ?_, rfl, rfl, hsm, ?_, ?_, ?_⟩
  · rcases updateFwByModel_elim c fw fbm0 fbm hfbm with ⟨h1, h2⟩ | ⟨h1, fwd, n0, h2, h3, h4⟩
    · exact Or.inl ⟨h1, h2⟩
    · refine Or.inr ⟨h1, fwd, h2, ?_⟩
      have h5 : n0 = nm := by
        rw [hnm] at h3
        exact ((Except.ok.injEq _ _).mp h3).symm
      rw [h4, h5]
  · rcases deriveSigId_elim (prop1 c "firmware-signing") (truthyOpt sv) p0 identity
        sp hsp with ⟨h1, h2⟩ | ⟨h1, sid, h2, h3⟩
    · exact Or.inl ⟨h1, by rw [h2]⟩
    · exact Or.inr ⟨h1, by rw [h3]⟩
  · intro mi' hmi'
    cases hmi'
    rfl
  · intro ei' hei'
    cases hei'
    rfl
  · intro sv' hsv'
    cases hsv'
    rfl

theorem stepDevice_none (cs : List Dict) (s : RState) (i : Nat)
    (hc : cs.get? i = none) : stepDevice cs s i = .ok s := by
  simp only [stepDevice, hc]

theorem stepDevice_eq_processConfig (cs : List Dict) (s : RState) (i : Nat)
    (c : Dict) (fw : Value) (hc : cs.get? i = some c)
    (hfw : GetFirmwareConfig c = .ok fw) (ht : truthy fw = true)
    (hid : identityKey c ∉ s.processed) :
    stepDevice cs s i = processConfig cs c i (identityKey c) fw s := by
  simp only [stepDevice, hc, hfw, ebind_ok, GetProperties_identity]
  rw [if_pos ⟨ht, by rw [← identityKey_eq]; exact hid⟩, identityKey_eq]

theorem stepDevice_skip (cs : List Dict) (s : RState) (i : Nat)
    (c : Dict) (fw : Value) (hc : cs.get? i = some c)
    (hfw : GetFirmwareConfig c = .ok fw)
    (hg : ¬(truthy fw = true ∧ identityKey c ∉ s.processed)) :
    stepDevice cs s i = .ok s := by
  simp only [stepDevice, hc, hfw, ebind_ok, GetProperties_identity]
  rw [if_neg (by rw [← identityKey_eq]; exact hg)]

theorem processConfig_elim (cs : List Dict) (c : Dict) (i : Nat)
    (identity : String) (fw : Value) (s s' : RState)
    (h : processConfig cs c i identity fw s = .ok s') :
    ∃ p, planConfig c identity fw s.fw_by_model s.processed = .ok p ∧
      ((p.sic = true ∧
          (List.range cs.length).foldlM (wlStep cs p.name p.info)
            { maps := modifyIdx s.maps i
                (fun m => odInsert m (some (Value.str p.name)) p.info)
              fw_by_model := p.fw_by_model
              processed := p.processed } = .ok s') ∨
        (p.sic = false ∧
          s' = { maps := modifyIdx s.maps i
                  (fun m => odInsert m (some (Value.str p.name)) p.info)
                 fw_by_model := p.fw_by_model
                 processed := p.processed })) := by
  simp only [processConfig] at h
  cases hp : planConfig c identity fw s.fw_by_model s.processed with
  | error e => rw [hp] at h; exact absurd h (by simp)
  | ok p =>
  rw [hp] at h
  simp only [ebind_ok] at h
  refine ⟨p, rfl, ?_⟩
  cases hsic : p.sic with
  | true =>
    rw [hsic] at h
    simp only [if_pos] at h
    exact Or.inl ⟨rfl, h⟩
  | false =>
    rw [hsic] at h
    simp only [Bool.false_eq_true, if_neg] at h
    cases h
    exact Or.inr ⟨rfl, rfl⟩

theorem stepDevice_elim (cs : List Dict) (s : RState) (i : Nat) (s' : RState)
    (h : stepDevice cs s i = .ok s') :
    s' = s ∨ ∃ c fw p,
      cs.get? i = some c ∧ GetFirmwareConfig c = .ok fw ∧ truthy fw = true ∧
      identityKey c ∉ s.processed ∧
      planConfig c (identityKey c) fw s.fw_by_model s.processed = .ok p ∧
      ((p.sic = true ∧
          (List.range cs.length).foldlM (wlStep cs p.name p.info)
            { maps := modifyIdx s.maps i
                (fun m => odInsert m (some (Value.str p.name)) p.info)
              fw_by_model := p.fw_by_model
              processed := p.processed } = .ok s') ∨
        (p.sic = false ∧
          s' = { maps := modifyIdx s.maps i
                  (fun m => odInsert m (some (Value.str p.name)) p.info)
                 fw_by_model := p.fw_by_model
                 processed := p.processed })) := by
  cases hc : cs.get? i with
  | none =>
    rw [stepDevice_none cs s i hc] at h
    exact Or.inl (by cases h; rfl)
  | some c =>
    cases hfw : GetFirmwareConfig c with
    | error e =>
      simp only [stepDevice, hc, hfw, ebind_error] at h
      exact absurd h (by simp)
    | ok fw =>
      by_cases hg : truthy fw = true ∧ identityKey c ∉ s.processed
      · rw [stepDevice_eq_processConfig cs s i c fw hc hfw hg.1 hg.2] at h
        obtain ⟨p, hp, hrest⟩ := processConfig_elim cs c i (identityKey c) fw s s' h
        exact Or.inr ⟨c, fw, p, rfl, hfw, hg.1, hg.2, hp, hrest⟩
      · rw [stepDevice_skip cs s i c fw hc hfw hg] at h
        exact Or.inl (by cases h; rfl)

/-- Everything the resolver only ever grows: the number of per-device maps is
fixed, the processed set only gains members, and the descriptor table is
append-only. -/
def Rmono (s s' : RState) : Prop :=
  s'.maps.length = s.maps.length ∧ s.processed ⊆ s'.processed ∧
    ∃ ext, s'.fw_by_model = s.fw_by_model ++ ext

theorem Rmono_refl (s : RState) : Rmono s s :=
  ⟨rfl, fun _ h => h, [], by simp⟩

theorem Rmono_trans (a b c : RState) (h1 : Rmono a b) (h2 : Rmono b c) :
    Rmono a c := by
  obtain ⟨l1, p1, e1, f1⟩ := h1
  obtain ⟨l2, p2, e2, f2⟩ := h2
  exact ⟨l2.trans l1, p1.trans p2, e1 ++ e2, by rw [f2, f1, List.append_assoc]⟩

theorem wlStep_mono (cs : List Dict) (name : String) (info : FirmwareInfo)
    (s : RState) (j : Nat) (s' : RState)
    (h : wlStep cs name info s j = .ok s') : Rmono s s' := by
  rcases wlStep_elim cs name info s j s' h with rfl | ⟨wc, kid, sid, _, _, _, _, _, hm, hf, hp⟩
  · exact Rmono_refl _
  · exact ⟨by rw [hm, modifyIdx_length], by rw [hp]; exact addIfAbsent_sub _ _,
      [], by rw [hf, List.append_nil]⟩

theorem stepDevice_mono (cs : List Dict) (s : RState) (i : Nat) (s' : RState)
    (h : stepDevice cs s i = .ok s') : Rmono s s' := by
  rcases stepDevice_elim cs s i s' h with rfl | ⟨c, fw, p, _, _, _, _, hp, hrest⟩
  · exact Rmono_refl _
  · obtain ⟨_, hfbm, hproc, _⟩ := planConfig_shape c (identityKey c) fw
      s.fw_by_model s.processed p hp
    have hmid : Rmono s
        { maps := modifyIdx s.maps i
            (fun m => odInsert m (some (Value.str p.name)) p.info)
          fw_by_model := p.fw_by_model
          processed := p.processed } := by
      refine ⟨by simp [modifyIdx_length], ?_, ?_⟩
      · rcases hproc with ⟨_, h2⟩ | ⟨_, h2⟩
        · rw [h2]; exact fun _ hx => hx
        · rw [h2]; exact addIfAbsent_sub _ _
      · rcases hfbm with ⟨_, h2⟩ | ⟨_, fwd, _, h2⟩
        · exact ⟨[], by rw [h2, List.append_nil]⟩
        · exact ⟨_, h2⟩
    rcases hrest with ⟨_, hfold⟩ | ⟨_, hs'⟩
    · exact Rmono_trans _ _ _ hmid
        (foldlM_rel Rmono Rmono_refl Rmono_trans _
          (fun a b c h => wlStep_mono cs p.name p.info a b c h) _ _ _ hfold)
    · rw [hs']; exact hmid

theorem runSteps_mono (cs : List Dict) (s : RState) (l : List Nat) (s' : RState)
    (h : runSteps cs s l = .ok s') : Rmono s s' :=
  foldlM_rel Rmono Rmono_refl Rmono_trans _
    (fun a b c h => stepDevice_mono cs a b c h) l s s' h

theorem planConfig_err_noname (c : Dict) (identity : String) (fw : Value)
    (fbm0 : List (String × Value)) (p0 : List String)
    (h : slookup c "name" = none) :
    ∃ e, planConfig c identity fw fbm0 p0 = .error e := by
  simp only [planConfig]
  apply ebind_err_of; intro fbm
  cases hsm : slookup fbm (pyStr fw) with
  | none =>
    simp only [hsm]
    exact ⟨.keyError, rfl⟩
  | some sm =>
  simp only [hsm, ebind_ok]
  apply ebind_err_of; intro bt
  apply ebind_err_of; intro mi
  apply ebind_err_of; intro mrw
  apply ebind_err_of; intro ei
  apply ebind_err_of; intro pd
  apply ebind_err_of; intro ex
  apply ebind_err_of; intro tl
  apply ebind_err_of; intro fsc
  apply ebind_err_of; intro ki
  apply ebind_err_of; intro sv
  rw [GetName_none c h]
  exact ⟨.keyError, rfl⟩

/-- C5 (amended): a device entry lacking the required `name` key makes
construction fail whenever the resolver actually processes that device — its
firmware config is truthy and its identity rendering is not yet processed
when its turn comes.  (A nameless device whose firmware config is empty is
skipped and does not by itself fail construction; see the counterexample.) -/
theorem claim_C5 (cs : List Dict) (i : Nat) (c : Dict) (fw : Value)
    (spre : RState)
    (hc : cs.get? i = some c)
    (hname : slookup c "name" = none)
    (hfw : GetFirmwareConfig c = .ok fw)
    (ht : truthy fw = true)
    (hpre : runSteps cs (initState cs) (List.range i) = .ok spre)
    (hid : identityKey c ∉ spre.processed) :
    ∃ e, crosConfigInit cs = .error e := by
  have hi : i < cs.length := by
    rcases List.get?_eq_some.mp hc with ⟨h1, _⟩
    exact h1
  show ∃ e, runSteps cs (initState cs) (List.range cs.length) = .error e
  rw [range_split i cs.length hi, runSteps_append, hpre]
  simp only [ebind_ok]
  rw [runSteps_cons, stepDevice_eq_processConfig cs spre i c fw hc hfw ht hid]
  simp only [processConfig]
  obtain ⟨e, he⟩ := planConfig_err_noname c (identityKey c) fw
    spre.fw_by_model spre.processed hname
  exact ⟨e, by rw [he]; rfl⟩

/-- C5 counterexample: a device entry lacking `name` (and without a firmware
subtree) does NOT fail construction — the resolver skips it, refuting
"regardless of whether that device has a firmware subtree". -/
theorem claim_C5_cex :
    slookup ([] : Dict) "name" = none ∧
      crosConfigInit [([] : Dict)] =
        .ok { maps := [[]], fw_by_model := [], processed := [] } :=
  ⟨rfl, rfl⟩

/-- C5 witness: a nameless device with a non-empty firmware subtree fails
construction. -/
theorem claim_C5_witness :
    slookup [("firmware", Value.dict [("main-image", Value.str "x")])] "name"
        = none ∧
      truthy (Value.dict [("main-image", Value.str "x")]) = true ∧
      ∃ e, crosConfigInit [[("firmware", Value.dict [("main-image", Value.str "x")])]]
        = .error e := by
  refine ⟨rfl, rfl, ?_⟩
  exact claim_C5 [[("firmware", Value.dict [("main-image", Value.str "x")])]] 0
    [("firmware", Value.dict [("main-image", Value.str "x")])]
    (Value.dict [("main-image", Value.str "x")])
    (initState [[("firmware", Value.dict [("main-image", Value.str "x")])]])
    rfl rfl rfl rfl rfl (by simp [initState])

/-- C8: `deviceConfigs()` returns one wrapper per top-level device entry in
document order; the sort-by-identity call is computed but unstored, so the
result equals the plain resolver run over the construction-ordered list. -/
theorem claim_C8 (cs : List Dict) (s : RState) (h : crosConfigInit cs = .ok s) :
    (GetDeviceConfigs cs s).map Prod.fst = cs ∧
      crosConfigInit cs = runSteps cs (initState cs) (List.range cs.length) := by
  refine ⟨?_, rfl⟩
  have h' : runSteps cs (initState cs) (List.range cs.length) = .ok s := h
  have hm := runSteps_mono cs (initState cs) (List.range cs.length) s h'
  have hlen : s.maps.length = cs.length := by
    have h1 := hm.1
    simpa [initState] using h1
  rw [GetDeviceConfigs]
  exact List.map_fst_zip cs s.maps (le_of_eq hlen.symm)

/-- C8 witness: a two-device document comes back in document order. -/
theorem claim_C8_witness :
    crosConfigInit [[("name", Value.str "x")], [("name", Value.str "y")]] =
        .ok { maps := [[], []], fw_by_model := [], processed := [] } ∧
      (GetDeviceConfigs [[("name", Value.str "x")], [("name", Value.str "y")]]
          { maps := [[], []], fw_by_model := [], processed := [] }).map Prod.fst =
        [[("name", Value.str "x")], [("name", Value.str "y")]] :=
  ⟨rfl,
    (claim_C8 [[("name", Value.str "x")], [("name", Value.str "y")]]
      { maps := [[], []], fw_by_model := [], processed := [] } rfl).1⟩

/-- Every `firmware_info` key-value pair the resolver can have produced keys
an entry by (Python-equal) its own `model` field. -/
def KeyModelInv (s : RState) : Prop :=
  ∀ j m k e, s.maps.get? j = some m → (k, e) ∈ m → keyEq k e.model = true

theorem odInsert_key_model (m : FwMap) (k : Option Value) (v : FirmwareInfo)
    (hh : hashableKey k = true) (hv : v.model = k)
    (hm : ∀ k' e, (k', e) ∈ m → keyEq k' e.model = true) :
    ∀ k' e, (k', e) ∈ odInsert m k v → keyEq k' e.model = true := by
  intro k' e hmem
  rcases mem_odInsert m k k' v e hh hmem with h1 | ⟨h1, h2⟩
  · exact hm k' e h1
  · rw [h2, hv]; exact h1

theorem KeyModelInv_insert (s : RState) (j : Nat) (k : Option Value)
    (v : FirmwareInfo) (hh : hashableKey k = true) (hv : v.model = k)
    (hs : KeyModelInv s) :
    ∀ j' m k' e,
      (modifyIdx s.maps j (fun m => odInsert m k v)).get? j' = some m →
      (k', e) ∈ m → keyEq k' e.model = true := by
  intro j' m k' e hget hmem
  by_cases hj : j' = j
  · subst hj
    rw [get?_modifyIdx_self] at hget
    cases h0 : s.maps.get? j' with
    | none => rw [h0] at hget; exact absurd hget (by simp)
    | some m0 =>
      rw [h0] at hget
      simp only [Option.map] at hget
      cases hget
      exact odInsert_key_model m0 k v hh hv (fun k' e h => hs j' m0 k' e h0 h) k' e hmem
  · rw [get?_modifyIdx_other s.maps j j' _ hj] at hget
    exact hs j' m k' e hget hmem

theorem wlStep_KeyModel (cs : List Dict) (name : String) (info : FirmwareInfo)
    (s : RState) (j : Nat) (s' : RState)
    (h : wlStep cs name info s j = .ok s') (hs : KeyModelInv s) :
    KeyModelInv s' := by
  rcases wlStep_elim cs name info s j s' h with rfl | ⟨wc, kid, sid, _, _, _, _, hh, hm, _, _⟩
  · exact hs
  · intro j' m k' e hget hmem
    rw [hm] at hget
    exact KeyModelInv_insert s j sid _ hh rfl hs j' m k' e hget hmem

theorem stepDevice_KeyModel (cs : List Dict) (s : RState) (i : Nat) (s' : RState)
    (h : stepDevice cs s i = .ok s') (hs : KeyModelInv s) : KeyModelInv s' := by
  rcases stepDevice_elim cs s i s' h with rfl | ⟨c, fw, p, _, _, _, _, hp, hrest⟩
  · exact hs
  · obtain ⟨_, _, _, _, hmodel, _⟩ := planConfig_shape c (identityKey c) fw
      s.fw_by_model s.processed p hp
    have hmid : KeyModelInv
        { maps := modifyIdx s.maps i
            (fun m => odInsert m (some (Value.str p.name)) p.info)
          fw_by_model := p.fw_by_model
          processed := p.processed } := by
      intro j' m k' e hget hmem
      exact KeyModelInv_insert s i (some (Value.str p.name)) p.info rfl hmodel hs
        j' m k' e hget hmem
    rcases hrest with ⟨_, hfold⟩ | ⟨_, hs'⟩
    · exact foldlM_preserve KeyModelInv _
        (fun a b c h hp' => wlStep_KeyModel cs p.name p.info a b c h hp')
        _ _ _ hfold hmid
    · rw [hs']; exact hmid

/-- C9: after construction, every entry of every `firmwareInfo` map is keyed
by (Python-equal) its own `model` field — base entries are keyed by the
device name with `model` that name, whitelabel copies by the derived sigId
with `model` that sigId. -/
theorem claim_C9 (cs : List Dict) (s : RState) (h : crosConfigInit cs = .ok s) :
    ∀ j m k e, s.maps.get? j = some m → (k, e) ∈ m → keyEq k e.model = true := by
  have h' : runSteps cs (initState cs) (List.range cs.length) = .ok s := h
  have hinit : KeyModelInv (initState cs) := by
    intro j m k e hget hmem
    simp only [initState, List.get?_map] at hget
    cases h0 : cs.get? j with
    | none => rw [h0] at hget; exact absurd hget (by simp)
    | some c =>
      rw [h0] at hget
      simp only [Option.map] at hget
      cases hget
      exact absurd hmem (by simp)
  exact foldlM_preserve KeyModelInv _
    (fun a b c hx hp => stepDevice_KeyModel cs a b c hx hp) _ _ _ h' hinit

/-- C9 witness: the single-device document evaluated concretely. -/
theorem claim_C9_witness :
    crosConfigInit [[("name", Value.str "b"),
        ("firmware", Value.dict [("main-image", Value.str "i")])]] =
      .ok (resolvedState [[("name", Value.str "b"),
        ("firmware", Value.dict [("main-image", Value.str "i")])]]) ∧
    (some (Value.str "b"),
        (fwLookup ((resolvedState [[("name", Value.str "b"),
          ("firmware", Value.dict [("main-image", Value.str "i")])]]).maps.getD 0 [])
          (some (Value.str "b"))).getD noInfo) ∈
      (resolvedState [[("name", Value.str "b"),
        ("firmware", Value.dict [("main-image", Value.str "i")])]]).maps.getD 0 [] ∧
    keyEq (some (Value.str "b"))
      ((fwLookup ((resolvedState [[("name", Value.str "b"),
          ("firmware", Value.dict [("main-image", Value.str "i")])]]).maps.getD 0 [])
          (some (Value.str "b"))).getD noInfo).model = true := by
  refine ⟨rfl, ?_, ?_⟩
  · exact List.mem_of_mem_head? rfl
  · refine claim_C9 [[("name", Value.str "b"),
        ("firmware", Value.dict [("main-image", Value.str "i")])]] _ rfl 0 _ _ _ rfl ?_
    exact List.mem_of_mem_head? rfl

/-- Device `i`'s `firmware_info` map exists and is non-empty. -/
def Pne (i : Nat) (s : RState) : Prop :=
  ∃ m, s.maps.get? i = some m ∧ m ≠ []

/-- The C1 invariant: the maps list keeps one map per device, and once device
`i`'s identity rendering has been marked processed, its map is non-empty. -/
def C1Inv (cs : List Dict) (i : Nat) (c : Dict) (s : RState) : Prop :=
  s.maps.length = cs.length ∧ (identityKey c ∈ s.processed → Pne i s)

theorem get?_isSome_of_lt {α : Type} (l : List α) (i : Nat) (h : i < l.length) :
    ∃ m, l.get? i = some m :=
  ⟨l.get ⟨i, h⟩, List.get?_eq_get h⟩

theorem Pne_modify (i j : Nat) (s : RState) (k : Option Value) (v : FirmwareInfo)
    (hp : Pne i s) :
    Pne i { s with maps := modifyIdx s.maps j (fun m => odInsert m k v) } := by
  obtain ⟨m, hm, hne⟩ := hp
  by_cases hj : i = j
  · subst hj
    refine ⟨odInsert m k v, ?_, odInsert_ne_nil m k v⟩
    show (modifyIdx s.maps i fun m => odInsert m k v).get? i = _
    rw [get?_modifyIdx_self, hm, Option.map]
  · refine ⟨m, ?_, hne⟩
    show (modifyIdx s.maps j fun m => odInsert m k v).get? i = some m
    rw [get?_modifyIdx_other s.maps j i _ hj, hm]

theorem Pne_new (i : Nat) (s : RState) (k : Option Value) (v : FirmwareInfo)
    (hlt : i < s.maps.length) :
    Pne i { s with maps := modifyIdx s.maps i (fun m => odInsert m k v) } := by
  obtain ⟨m, hm⟩ := get?_isSome_of_lt s.maps i hlt
  refine ⟨odInsert m k v, ?_, odInsert_ne_nil m k v⟩
  show (modifyIdx s.maps i fun m => odInsert m k v).get? i = _
  rw [get?_modifyIdx_self, hm, Option.map]

theorem wlStep_Pne (cs : List Dict) (name : String) (info : FirmwareInfo)
    (i : Nat) (s : RState) (j : Nat) (s' : RState)
    (h : wlStep cs name info s j = .ok s') (hp : Pne i s) : Pne i s' := by
  rcases wlStep_elim cs name info s j s' h with rfl | ⟨wc, kid, sid, _, _, _, _, _, hm, _, _⟩
  · exact hp
  · obtain ⟨m, hm1, hne⟩ := Pne_modify i j s sid
      { info with model := sid, key_id := kid, have_image := false, sig_id := sid } hp
    exact ⟨m, by rw [hm]; exact hm1, hne⟩

theorem stepDevice_Pne (cs : List Dict) (i : Nat) (s : RState) (k : Nat)
    (s' : RState) (h : stepDevice cs s k = .ok s') (hp : Pne i s) : Pne i s' := by
  rcases stepDevice_elim cs s k s' h with rfl | ⟨c, fw, p, _, _, _, _, _, hrest⟩
  · exact hp
  · have hmid := Pne_modify i k s (some (Value.str p.name)) p.info hp
    rcases hrest with ⟨_, hfold⟩ | ⟨_, hs'⟩
    · exact foldlM_preserve (Pne i) _
        (fun a b c h hx => wlStep_Pne cs p.name p.info i a b c h hx) _ _ _ hfold hmid
    · rw [hs']; exact hmid

theorem wlStep_C1Inv (cs : List Dict) (i : Nat) (c : Dict)
    (hc : cs.get? i = some c)
    (huniq : ∀ j wc, cs.get? j = some wc → identityKey wc = identityKey c → j = i)
    (name : String) (info : FirmwareInfo) (s : RState) (j : Nat) (s' : RState)
    (h : wlStep cs name info s j = .ok s') (hs : C1Inv cs i c s) :
    C1Inv cs i c s' := by
  rcases wlStep_elim cs name info s j s' h with rfl | ⟨wc, kid, sid, hj, _, _, _, _, hm, _, hproc⟩
  · exact hs
  · obtain ⟨hlen, himp⟩ := hs
    constructor
    · rw [hm, modifyIdx_length, hlen]
    · intro hmem
      rw [hproc] at hmem
      rcases mem_addIfAbsent_elim _ _ _ hmem with h1 | h1
      · obtain ⟨m, hm1, hne⟩ := Pne_modify i j s sid
          { info with model := sid, key_id := kid, have_image := false, sig_id := sid }
          (himp h1)
        exact ⟨m, by rw [hm]; exact hm1, hne⟩
      · have hji : j = i := huniq j wc hj h1.symm
        subst hji
        have hlt : j < s.maps.length := by
          rw [hlen]
          rcases List.get?_eq_some.mp hc with ⟨h2, _⟩
          exact h2
        obtain ⟨m, hm1, hne⟩ := Pne_new j s sid
          { info with model := sid, key_id := kid, have_image := false, sig_id := sid } hlt
        exact ⟨m, by rw [hm]; exact hm1, hne⟩

theorem stepDevice_C1Inv (cs : List Dict) (i : Nat) (c : Dict)
    (hc : cs.get? i = some c)
    (huniq : ∀ j wc, cs.get? j = some wc → identityKey wc = identityKey c → j = i)
    (s : RState) (k : Nat) (s' : RState)
    (h : stepDevice cs s k = .ok s') (hs : C1Inv cs i c s) : C1Inv cs i c s' := by
  rcases stepDevice_elim cs s k s' h with rfl | ⟨ck, fw, p, hck, _, _, _, hp, hrest⟩
  · exact hs
  · obtain ⟨hlen, himp⟩ := hs
    obtain ⟨_, _, hproc, _⟩ := planConfig_shape ck (identityKey ck) fw
      s.fw_by_model s.processed p hp
    have hmid : C1Inv cs i c
        { maps := modifyIdx s.maps k
            (fun m => odInsert m (some (Value.str p.name)) p.info)
          fw_by_model := p.fw_by_model
          processed := p.processed } := by
      constructor
      · rw [modifyIdx_length]; exact hlen
      · intro hmem
        have hcase : identityKey c ∈ s.processed ∨ identityKey c = identityKey ck := by
          rcases hproc with ⟨_, h2⟩ | ⟨_, h2⟩
          · rw [h2] at hmem; exact Or.inl hmem
          · rw [h2] at hmem; exact mem_addIfAbsent_elim _ _ _ hmem
        rcases hcase with h1 | h1
        · exact Pne_modify i k s _ _ (himp h1)
        · have hki : k = i := huniq k ck hck h1.symm
          subst hki
          have hlt : k < s.maps.length := by
            rw [hlen]
            rcases List.get?_eq_some.mp hc with ⟨h2, _⟩
            exact h2
          exact Pne_new k s _ _ hlt
    rcases hrest with ⟨_, hfold⟩ | ⟨_, hs'⟩
    · exact foldlM_preserve (C1Inv cs i c) _
        (fun a b c' h hx => wlStep_C1Inv cs i c hc huniq p.name p.info a b c' h hx)
        _ _ _ hfold hmid
    · rw [hs']; exact hmid

/-- C1 (amended): a DeviceConfig with a non-empty, un-suppressed firmware
descriptor ends construction with at least one FirmwareInfo entry provided no
OTHER device carries an identical `/identity` string-rendering.  (When an
earlier device has the same rendering, the device is skipped and may end with
an empty map; see the counterexample.) -/
theorem claim_C1 (cs : List Dict) (s : RState) (i : Nat) (c : Dict) (fw : Value)
    (h : crosConfigInit cs = .ok s)
    (hc : cs.get? i = some c)
    (hfw : GetFirmwareConfig c = .ok fw)
    (ht : truthy fw = true)
    (huniq : ∀ j wc, j ≠ i → cs.get? j = some wc → identityKey wc ≠ identityKey c) :
    ∃ m, s.maps.get? i = some m ∧ m ≠ [] := by
  have huniq' : ∀ j wc, cs.get? j = some wc → identityKey wc = identityKey c → j = i := by
    intro j wc hj heq
    by_contra hne
    exact huniq j wc hne hj heq
  have h' : runSteps cs (initState cs) (List.range cs.length) = .ok s := h
  have hi : i < cs.length := by
    rcases List.get?_eq_some.mp hc with ⟨h1, _⟩
    exact h1
  rw [range_split i cs.length hi] at h'
  obtain ⟨spre, hpre, hrest⟩ := runSteps_ok_split cs _ s _ _ h'
  rw [runSteps_cons] at hrest
  cases hstep : stepDevice cs spre i with
  | error e => rw [hstep] at hrest; exact absurd hrest (by simp)
  | ok smid =>
    rw [hstep] at hrest
    simp only [ebind_ok] at hrest
    have hinvinit : C1Inv cs i c (initState cs) := by
      constructor
      · simp [initState]
      · intro hmem; exact absurd hmem (by simp [initState])
    have hinvpre : C1Inv cs i c spre :=
      foldlM_preserve (C1Inv cs i c) _
        (fun a b c' hx hy => stepDevice_C1Inv cs i c hc huniq' a b c' hx hy)
        _ _ _ hpre hinvinit
    have hmidne : Pne i smid := by
      by_cases hidp : identityKey c ∈ spre.processed
      · exact stepDevice_Pne cs i spre i smid hstep (hinvpre.2 hidp)
      · rw [stepDevice_eq_processConfig cs spre i c fw hc hfw ht hidp] at hstep
        obtain ⟨p, hp, hrest2⟩ := processConfig_elim cs c i (identityKey c) fw spre smid hstep
        have hlt : i < spre.maps.length := by rw [hinvpre.1]; exact hi
        have hmid := Pne_new i spre (some (Value.str p.name)) p.info hlt
        rcases hrest2 with ⟨_, hfold⟩ | ⟨_, hs'⟩
        · exact foldlM_preserve (Pne i) _
            (fun a b c' hx hy => wlStep_Pne cs p.name p.info i a b c' hx hy)
            _ _ _ hfold hmid
        · rw [hs']; exact hmid
    exact foldlM_preserve (Pne i) _
      (fun a b c' hx hy => stepDevice_Pne cs i a b c' hx hy) _ _ _ hrest hmidne

/-- C1 counterexample: two devices with identical `/identity` renderings; the
second has a non-empty firmware descriptor yet ends construction with an
empty `firmwareInfo` map, refuting the "including when another device earlier
in document order has an identical /identity string-rendering" part. -/
theorem claim_C1_cex :
    crosConfigInit
        [[("name", Value.str "A"), ("identity", Value.dict [("x", Value.str "1")]),
          ("firmware", Value.dict [("main-image", Value.str "m1")])],
         [("name", Value.str "B"), ("identity", Value.dict [("x", Value.str "1")]),
          ("firmware", Value.dict [("main-image", Value.str "m2")])]] =
      .ok (resolvedState
        [[("name", Value.str "A"), ("identity", Value.dict [("x", Value.str "1")]),
          ("firmware", Value.dict [("main-image", Value.str "m1")])],
         [("name", Value.str "B"), ("identity", Value.dict [("x", Value.str "1")]),
          ("firmware", Value.dict [("main-image", Value.str "m2")])]]) ∧
    GetFirmwareConfig
        [("name", Value.str "B"), ("identity", Value.dict [("x", Value.str "1")]),
         ("firmware", Value.dict [("main-image", Value.str "m2")])] =
      .ok (Value.dict [("main-image", Value.str "m2")]) ∧
    truthy (Value.dict [("main-image", Value.str "m2")]) = true ∧
    identityKey
        [("name", Value.str "A"), ("identity", Value.dict [("x", Value.str "1")]),
         ("firmware", Value.dict [("main-image", Value.str "m1")])] =
      identityKey
        [("name", Value.str "B"), ("identity", Value.dict [("x", Value.str "1")]),
         ("firmware", Value.dict [("main-image", Value.str "m2")])] ∧
    (resolvedState
        [[("name", Value.str "A"), ("identity", Value.dict [("x", Value.str "1")]),
          ("firmware", Value.dict [("main-image", Value.str "m1")])],
         [("name", Value.str "B"), ("identity", Value.dict [("x", Value.str "1")]),
          ("firmware", Value.dict [("main-image", Value.str "m2")])]]).maps.get? 1 =
      some [] :=
  ⟨rfl, rfl, rfl, rfl, rfl⟩

/-- C1 witness: a lone device with a firmware descriptor ends with a
non-empty map. -/
theorem claim_C1_witness :
    ∃ m, (resolvedState [[("name", Value.str "b"),
        ("firmware", Value.dict [("ec-image", Value.str "e")])]]).maps.get? 0 =
      some m ∧ m ≠ [] := by
  refine claim_C1 [[("name", Value.str "b"),
      ("firmware", Value.dict [("ec-image", Value.str "e")])]]
    (resolvedState [[("name", Value.str "b"),
      ("firmware", Value.dict [("ec-image", Value.str "e")])]])
    0 [("name", Value.str "b"), ("firmware", Value.dict [("ec-image", Value.str "e")])]
    (Value.dict [("ec-image", Value.str "e")]) rfl rfl rfl rfl ?_
  intro j wc hj hg
  cases j with
  | zero => exact absurd rfl hj
  | succ n => cases n <;> exact absurd hg (by simp)

theorem foldlM_ok_split {σ α : Type} (f : σ → α → Except PyErr σ)
    (l1 l2 : List α) (s s2 : σ) (h : (l1 ++ l2).foldlM f s = .ok s2) :
    ∃ s1, l1.foldlM f s = .ok s1 ∧ l2.foldlM f s1 = .ok s2 := by
  induction l1 generalizing s with
  | nil => exact ⟨s, rfl, h⟩
  | cons a t ih =>
    rw [List.cons_append] at h
    simp only [List.foldlM] at h ⊢
    cases hx : f s a with
    | error e => rw [hx] at h; exact absurd h (by simp)
    | ok sa => rw [hx] at h; exact ih sa h

theorem foldlM_preserve_mem {σ α : Type} (P : σ → Prop)
    (f : σ → α → Except PyErr σ) (l : List α)
    (hf : ∀ s a s', a ∈ l → f s a = .ok s' → P s → P s') :
    ∀ (s s' : σ), l.foldlM f s = .ok s' → P s → P s' := by
  induction l with
  | nil =>
    intro s s' h hp
    simp only [List.foldlM] at h
    cases h; exact hp
  | cons a t ih =>
    intro s s' h hp
    simp only [List.foldlM] at h
    cases hx : f s a with
    | error e => rw [hx] at h; exact absurd h (by simp)
    | ok s1 =>
      rw [hx] at h
      exact ih (fun s a' s' ha' hx' hp' => hf s a' s' (List.mem_cons_of_mem _ ha') hx' hp')
        s1 s' h (hf s a s1 (List.mem_cons_self _ _) hx hp)

/-- The matched-sibling case of one whitelabel-rescan iteration, computed. -/
theorem wlStep_match (cs : List Dict) (name : String) (info : FirmwareInfo)
    (s : RState) (j : Nat) (wc : Dict) (s' : RState)
    (hj : cs.get? j = some wc) (hn : GetName wc = .ok name)
    (h : wlStep cs name info s j = .ok s') :
    ∃ kid sid,
      GetValue (prop1 wc "firmware-signing") "key-id" = .ok kid ∧
      GetValue (prop1 wc "firmware-signing") "signature-id" = .ok sid ∧
      hashableKey sid = true ∧
      s'.maps = modifyIdx s.maps j (fun m => odInsert m sid
        { info with model := sid, key_id := kid, have_image := false, sig_id := sid }) ∧
      s'.fw_by_model = s.fw_by_model ∧
      s'.processed = addIfAbsent s.processed (identityKey wc) := by
  simp only [wlStep, hj, hn, ebind_ok, if_pos] at h
  rw [GetProperties_identity wc] at h
  simp only [ebind_ok] at h
  rw [GetProperties_signer wc] at h
  simp only [ebind_ok] at h
  cases hk : GetValue (prop1 wc "firmware-signing") "key-id" with
  | error e => rw [hk] at h; exact absurd h (by simp)
  | ok kid =>
  rw [hk] at h
  simp only [ebind_ok] at h
  cases hs : GetValue (prop1 wc "firmware-signing") "signature-id" with
  | error e => rw [hs] at h; exact absurd h (by simp)
  | ok sid =>
  rw [hs] at h
  simp only [ebind_ok] at h
  by_cases hh : hashableKey sid = true
  · rw [if_pos hh] at h
    cases h
    exact ⟨kid, sid, rfl, rfl, hh, rfl, rfl, by rw [identityKey_eq]⟩
  · rw [if_neg hh] at h; exact absurd h (by simp)

theorem wlStep_maps_other (cs : List Dict) (name : String) (info : FirmwareInfo)
    (s : RState) (j j' : Nat) (s' : RState) (hne : j ≠ j')
    (h : wlStep cs name info s j' = .ok s') :
    s'.maps.get? j = s.maps.get? j := by
  rcases wlStep_elim cs name info s j' s' h with rfl | ⟨wc, kid, sid, _, _, _, _, _, hm, _, _⟩
  · rfl
  · rw [hm, get?_modifyIdx_other s.maps j' j _ hne]

/-- After a whitelabel rescan from `s1`, every name-matching sibling holds
the overwritten copy of `info` keyed by its own `signature-id`. -/
theorem wlScan_entry (cs : List Dict) (name : String) (info : FirmwareInfo)
    (s1 s2 : RState)
    (hfold : (List.range cs.length).foldlM (wlStep cs name info) s1 = .ok s2)
    (hlen : s1.maps.length = cs.length)
    (j : Nat) (wc : Dict) (hj : cs.get? j = some wc)
    (hn : GetName wc = .ok name) :
    ∃ kid sid m,
      GetValue (prop1 wc "firmware-signing") "key-id" = .ok kid ∧
      GetValue (prop1 wc "firmware-signing") "signature-id" = .ok sid ∧
      s2.maps.get? j = some m ∧
      fwLookup m sid = some
        { info with model := sid, key_id := kid, have_image := false, sig_id := sid } := by
  have hjlt : j < cs.length := by
    rcases List.get?_eq_some.mp hj with ⟨h1, _⟩
    exact h1
  rw [range_split j cs.length hjlt] at hfold
  obtain ⟨sa, hpre, hrest⟩ := foldlM_ok_split _ _ _ _ _ hfold
  simp only [List.foldlM] at hrest
  cases hstep : wlStep cs name info sa j with
  | error e => rw [hstep] at hrest; exact absurd hrest (by simp)
  | ok sb =>
  rw [hstep] at hrest
  obtain ⟨kid, sid, hk, hs, hh, hm, _, _⟩ :=
    wlStep_match cs name info sa j wc sb hj hn hstep
  have hlena : sa.maps.length = s1.maps.length :=
    (foldlM_rel Rmono Rmono_refl Rmono_trans _
      (fun a b c h => wlStep_mono cs name info a b c h) _ _ _ hpre).1
  obtain ⟨m0, hm0⟩ := get?_isSome_of_lt sa.maps j (by rw [hlena, hlen]; exact hjlt)
  have hsb : sb.maps.get? j = some (odInsert m0 sid
      { info with model := sid, key_id := kid, have_image := false, sig_id := sid }) := by
    rw [hm, get?_modifyIdx_self, hm0, Option.map]
  have hfinal : s2.maps.get? j = sb.maps.get? j := by
    refine foldlM_preserve_mem (fun s => s.maps.get? j = sb.maps.get? j)
      (wlStep cs name info) _ ?_ sb s2 hrest rfl
    intro s a s' ha hx hp
    have hane : j ≠ a := by
      rcases List.mem_map.mp ha with ⟨t, _, rfl⟩
      omega
    rw [wlStep_maps_other cs name info s j a s' hane hx, hp]
  refine ⟨kid, sid, odInsert m0 sid _, hk, hs, by rw [hfinal, hsb], ?_⟩
  exact fwLookup_odInsert_self m0 sid _ hh

/-- After a whitelabel rescan, every name-matching sibling's identity is
marked processed. -/
theorem wlScan_marks (cs : List Dict) (name : String) (info : FirmwareInfo)
    (s1 s2 : RState)
    (hfold : (List.range cs.length).foldlM (wlStep cs name info) s1 = .ok s2)
    (j : Nat) (wc : Dict) (hj : cs.get? j = some wc)
    (hn : GetName wc = .ok name) :
    identityKey wc ∈ s2.processed := by
  have hjlt : j < cs.length := by
    rcases List.get?_eq_some.mp hj with ⟨h1, _⟩
    exact h1
  rw [range_split j cs.length hjlt] at hfold
  obtain ⟨sa, hpre, hrest⟩ := foldlM_ok_split _ _ _ _ _ hfold
  simp only [List.foldlM] at hrest
  cases hstep : wlStep cs name info sa j with
  | error e => rw [hstep] at hrest; exact absurd hrest (by simp)
  | ok sb =>
  rw [hstep] at hrest
  obtain ⟨kid, sid, _, _, _, _, _, hproc⟩ :=
    wlStep_match cs name info sa j wc sb hj hn hstep
  have hmem : identityKey wc ∈ sb.processed := by
    rw [hproc]; exact mem_addIfAbsent _ _
  exact (foldlM_rel Rmono Rmono_refl Rmono_trans _
    (fun a b c h => wlStep_mono cs name info a b c h) _ _ _ hrest).2.1 hmem

/-- Every device named `nm` has had its identity rendering marked processed. -/
def AllMarked (cs : List Dict) (nm : String) (s : RState) : Prop :=
  ∀ j wc, cs.get? j = some wc → GetName wc = .ok nm → identityKey wc ∈ s.processed

/-- Once every device named `nm` is marked, later resolver work never touches
the `firmware_info` of a device named `nm` (and the marking persists). -/
def FrozenRel (cs : List Dict) (nm : String) (s s' : RState) : Prop :=
  (AllMarked cs nm s → AllMarked cs nm s') ∧
  (AllMarked cs nm s → ∀ j wc, cs.get? j = some wc → GetName wc = .ok nm →
    s'.maps.get? j = s.maps.get? j)

theorem FrozenRel_refl (cs : List Dict) (nm : String) (s : RState) :
    FrozenRel cs nm s s :=
  ⟨fun h => h, fun _ _ _ _ _ => rfl⟩

theorem FrozenRel_trans (cs : List Dict) (nm : String) (a b c : RState)
    (h1 : FrozenRel cs nm a b) (h2 : FrozenRel cs nm b c) :
    FrozenRel cs nm a c := by
  refine ⟨fun ha => h2.1 (h1.1 ha), fun ha j wc hj hn => ?_⟩
  rw [h2.2 (h1.1 ha) j wc hj hn, h1.2 ha j wc hj hn]

theorem AllMarked_mono (cs : List Dict) (nm : String) (s s' : RState)
    (hsub : s.processed ⊆ s'.processed) (h : AllMarked cs nm s) :
    AllMarked cs nm s' :=
  fun j wc hj hn => hsub (h j wc hj hn)

theorem wlStep_Frozen (cs : List Dict) (nm : String) (name' : String)
    (info : FirmwareInfo) (hneq : name' ≠ nm) (s : RState) (j' : Nat)
    (s' : RState) (h : wlStep cs name' info s j' = .ok s') :
    FrozenRel cs nm s s' := by
  rcases wlStep_elim cs name' info s j' s' h
    with rfl | ⟨wc', kid, sid, hj', hn', _, _, _, hm, _, hproc⟩
  · exact FrozenRel_refl cs nm _
  · constructor
    · intro ha
      exact AllMarked_mono cs nm s s' (by rw [hproc]; exact addIfAbsent_sub _ _) ha
    · intro _ j wc hj hn
      have hne : j ≠ j' := by
        intro hcontra
        subst hcontra
        rw [hj] at hj'
        cases hj'
        rw [hn] at hn'
        exact hneq ((Except.ok.injEq _ _).mp hn').symm
      rw [hm, get?_modifyIdx_other s.maps j' j _ hne]

theorem stepDevice_Frozen (cs : List Dict) (nm : String) (s : RState) (k : Nat)
    (s' : RState) (h : stepDevice cs s k = .ok s') :
    FrozenRel cs nm s s' := by
  rcases stepDevice_elim cs s k s' h with rfl | ⟨ck, fw, p, hck, _, _, hidk, hp, hrest⟩
  · exact FrozenRel_refl cs nm _
  · obtain ⟨hnamep, _, hproc, _⟩ := planConfig_shape ck (identityKey ck) fw
      s.fw_by_model s.processed p hp
    have hsub1 : s.processed ⊆ p.processed := by
      rcases hproc with ⟨_, h2⟩ | ⟨_, h2⟩
      · rw [h2]; exact fun _ hx => hx
      · rw [h2]; exact addIfAbsent_sub _ _
    constructor
    · intro ha
      have hneq : p.name ≠ nm := by
        intro hcontra
        exact hidk (ha k ck hck (by rw [hnamep, hcontra]))
      have hmid : AllMarked cs nm
          { maps := modifyIdx s.maps k
              (fun m => odInsert m (some (Value.str p.name)) p.info)
            fw_by_model := p.fw_by_model
            processed := p.processed } :=
        AllMarked_mono cs nm s _ hsub1 ha
      rcases hrest with ⟨_, hfold⟩ | ⟨_, hs'⟩
      · exact (foldlM_rel (FrozenRel cs nm) (FrozenRel_refl cs nm)
          (FrozenRel_trans cs nm) _
          (fun a b c h => wlStep_Frozen cs nm p.name p.info hneq a b c h)
          _ _ _ hfold).1 hmid
      · rw [hs']; exact hmid
    · intro ha j wc hj hn
      have hneq : p.name ≠ nm := by
        intro hcontra
        exact hidk (ha k ck hck (by rw [hnamep, hcontra]))
      have hjk : j ≠ k := by
        intro hcontra
        subst hcontra
        rw [hj] at hck
        cases hck
        rw [hn] at hnamep
        exact hneq ((Except.ok.injEq _ _).mp hnamep).symm
      have hmid : AllMarked cs nm
          { maps := modifyIdx s.maps k
              (fun m => odInsert m (some (Value.str p.name)) p.info)
            fw_by_model := p.fw_by_model
            processed := p.processed } :=
        AllMarked_mono cs nm s _ hsub1 ha
      have hbase : (modifyIdx s.maps k
          (fun m => odInsert m (some (Value.str p.name)) p.info)).get? j =
          s.maps.get? j := get?_modifyIdx_other s.maps k j _ hjk
      rcases hrest with ⟨_, hfold⟩ | ⟨_, hs'⟩
      · have hfr := (foldlM_rel (FrozenRel cs nm) (FrozenRel_refl cs nm)
          (FrozenRel_trans cs nm) _
          (fun a b c h => wlStep_Frozen cs nm p.name p.info hneq a b c h)
          _ _ _ hfold).2 hmid j wc hj hn
        rw [hfr]
        exact hbase
      · rw [hs']
        exact hbase

theorem runSteps_Frozen (cs : List Dict) (nm : String) (s : RState)
    (l : List Nat) (s' : RState) (h : runSteps cs s l = .ok s') :
    FrozenRel cs nm s s' :=
  foldlM_rel (FrozenRel cs nm) (FrozenRel_refl cs nm) (FrozenRel_trans cs nm) _
    (fun a b c h => stepDevice_Frozen cs nm a b c h) l s s' h

/-- The shared whitelabel core: when the resolver processes device `i` on the
sig-id-in-customization-id branch, every device named like it ends the whole
construction holding the overwritten copy of `i`'s base record keyed by its
own `signature-id`. -/
theorem wl_entry_final (cs : List Dict) (sF spre : RState) (i : Nat) (c : Dict)
    (fw : Value) (sv : Option Value) (nm : String)
    (h : crosConfigInit cs = .ok sF)
    (hc : cs.get? i = some c)
    (hpre : runSteps cs (initState cs) (List.range i) = .ok spre)
    (hfresh : identityKey c ∉ spre.processed)
    (hfw : GetFirmwareConfig c = .ok fw) (ht : truthy fw = true)
    (hsic : GetValue (prop1 c "firmware-signing") "sig-id-in-customization-id" = .ok sv)
    (hsict : truthyOpt sv = true)
    (hname : GetName c = .ok nm) :
    ∀ j wc, cs.get? j = some wc → GetName wc = .ok nm →
      ∃ kid sid m p,
        GetValue (prop1 wc "firmware-signing") "key-id" = .ok kid ∧
        GetValue (prop1 wc "firmware-signing") "signature-id" = .ok sid ∧
        planConfig c (identityKey c) fw spre.fw_by_model spre.processed = .ok p ∧
        sF.maps.get? j = some m ∧
        fwLookup m sid = some { p.info with
          model := sid
          key_id := kid
          have_image := false
          sig_id := sid } := by
  intro j wc hj hn
  have hi : i < cs.length := by
    rcases List.get?_eq_some.mp hc with ⟨h1, _⟩
    exact h1
  have h' : runSteps cs (initState cs) (List.range cs.length) = .ok sF := h
  rw [range_split i cs.length hi] at h'
  obtain ⟨spre', hpre', hrest⟩ := runSteps_ok_split cs _ sF _ _ h'
  rw [hpre] at hpre'
  have hspre : spre' = spre := (Except.ok.injEq _ _).mp hpre'.symm
  rw [hspre] at hrest
  rw [runSteps_cons] at hrest
  cases hstep : stepDevice cs spre i with
  | error e => rw [hstep] at hrest; exact absurd hrest (by simp)
  | ok smid =>
  rw [hstep] at hrest
  simp only [ebind_ok] at hrest
  rw [stepDevice_eq_processConfig cs spre i c fw hc hfw ht hfresh] at hstep
  obtain ⟨p, hp, hrest2⟩ := processConfig_elim cs c i (identityKey c) fw spre smid hstep
  obtain ⟨hnamep, _, _, _, _, _, _, _, hsicp⟩ := planConfig_shape c (identityKey c) fw
    spre.fw_by_model spre.processed p hp
  have hpname : p.name = nm := by
    rw [hname] at hnamep
    exact ((Except.ok.injEq _ _).mp hnamep).symm
  have hpsic : p.sic = true := by
    rw [hsicp sv hsic, hsict]
  rcases hrest2 with ⟨_, hfold⟩ | ⟨hfalse, _⟩
  · have hlenpre : spre.maps.length = cs.length := by
      have hm := runSteps_mono cs (initState cs) (List.range i) spre hpre
      have h1 := hm.1
      simpa [initState] using h1
    have hlen1 : (modifyIdx spre.maps i
        (fun m => odInsert m (some (Value.str p.name)) p.info)).length = cs.length := by
      rw [modifyIdx_length, hlenpre]
    obtain ⟨kid, sid, m, hk, hs, hget, hfind⟩ := wlScan_entry cs p.name p.info
      _ smid hfold hlen1 j wc hj (by rw [hpname]; exact hn)
    have hmarks : AllMarked cs nm smid := by
      intro j' wc' hj' hn'
      exact wlScan_marks cs p.name p.info _ smid hfold j' wc' hj'
        (by rw [hpname]; exact hn')
    have hfr := (runSteps_Frozen cs nm smid _ sF hrest).2 hmarks j wc hj hn
    exact ⟨kid, sid, m, p, hk, hs, hp, by rw [hfr]; exact hget, hfind⟩
  · rw [hpsic] at hfalse
    exact absurd hfalse (by simp)

/-- C2 (amended): when a device with a truthy `sig-id-in-customization-id`
is actually processed by the resolver (non-empty firmware config, identity
rendering not yet processed when reached), every DeviceConfig in the
collection whose name equals that device's name — itself included — ends
construction holding a FirmwareInfo entry keyed by its own `signature-id`,
a deep copy of the base record sharing the base's mainImageUri and
ecImageUri but with that sibling's own keyId and sigId and hasImage=false.
(With no firmware config the branch never runs; see the counterexample.) -/
theorem claim_C2 (cs : List Dict) (sF spre : RState) (i : Nat) (c : Dict)
    (fw : Value) (sv mi ei : Option Value) (nm : String)
    (h : crosConfigInit cs = .ok sF)
    (hc : cs.get? i = some c)
    (hpre : runSteps cs (initState cs) (List.range i) = .ok spre)
    (hfresh : identityKey c ∉ spre.processed)
    (hfw : GetFirmwareConfig c = .ok fw) (ht : truthy fw = true)
    (hsic : GetValue (prop1 c "firmware-signing") "sig-id-in-customization-id" = .ok sv)
    (hsict : truthyOpt sv = true)
    (hname : GetName c = .ok nm)
    (hmi : GetValue fw "main-image" = .ok mi)
    (hei : GetValue fw "ec-image" = .ok ei) :
    ∀ j wc, cs.get? j = some wc → GetName wc = .ok nm →
      ∃ kid sid m e,
        GetValue (prop1 wc "firmware-signing") "key-id" = .ok kid ∧
        GetValue (prop1 wc "firmware-signing") "signature-id" = .ok sid ∧
        sF.maps.get? j = some m ∧
        fwLookup m sid = some e ∧
        e.model = sid ∧ e.key_id = kid ∧ e.sig_id = sid ∧ e.have_image = false ∧
        e.main_image_uri = pyOr mi (Value.str "") ∧
        e.ec_image_uri = pyOr ei (Value.str "") := by
  intro j wc hj hn
  obtain ⟨kid, sid, m, p, hk, hs, hp, hget, hfind⟩ :=
    wl_entry_final cs sF spre i c fw sv nm h hc hpre hfresh hfw ht hsic hsict hname
      j wc hj hn
  obtain ⟨_, _, _, _, _, _, hmiconj, heiconj, _⟩ := planConfig_shape c (identityKey c)
    fw spre.fw_by_model spre.processed p hp
  refine ⟨kid, sid, m, _, hk, hs, hget, hfind, rfl, rfl, rfl, rfl, ?_, ?_⟩
  · exact hmiconj mi hmi
  · exact heiconj ei hei

/-- C2 counterexample: a device whose `/firmware-signing` subtree has a
truthy `sig-id-in-customization-id` but whose firmware config is empty is
never processed: its `firmwareInfo` map stays empty, with no entry keyed by
its `signature-id` — refuting the claim as stated (no guard on the firmware
config). -/
theorem claim_C2_cex :
    GetValue (prop1 [("name", Value.str "A"),
        ("firmware-signing", Value.dict
          [("sig-id-in-customization-id", Value.bool true),
           ("signature-id", Value.str "s1")])] "firmware-signing")
      "sig-id-in-customization-id" = .ok (some (Value.bool true)) ∧
    truthyOpt (some (Value.bool true)) = true ∧
    crosConfigInit [[("name", Value.str "A"),
        ("firmware-signing", Value.dict
          [("sig-id-in-customization-id", Value.bool true),
           ("signature-id", Value.str "s1")])]] =
      .ok { maps := [[]], fw_by_model := [], processed := [] } :=
  ⟨rfl, rfl, rfl⟩

/-- C10: in the whitelabel branch, a name-matching sibling whose
`/firmware-signing` subtree lacks `signature-id` still gets a derived entry,
stored under the absent sentinel `None` as the map key, with `model` and
`sigId` both that sentinel. -/
theorem claim_C10 (cs : List Dict) (sF spre : RState) (i : Nat) (c : Dict)
    (fw : Value) (sv : Option Value) (nm : String) (j : Nat) (wc : Dict)
    (h : crosConfigInit cs = .ok sF)
    (hc : cs.get? i = some c)
    (hpre : runSteps cs (initState cs) (List.range i) = .ok spre)
    (hfresh : identityKey c ∉ spre.processed)
    (hfw : GetFirmwareConfig c = .ok fw) (ht : truthy fw = true)
    (hsic : GetValue (prop1 c "firmware-signing") "sig-id-in-customization-id" = .ok sv)
    (hsict : truthyOpt sv = true)
    (hname : GetName c = .ok nm)
    (hj : cs.get? j = some wc) (hn : GetName wc = .ok nm)
    (hnosig : GetValue (prop1 wc "firmware-signing") "signature-id" = .ok none) :
    ∃ m e, sF.maps.get? j = some m ∧ fwLookup m none = some e ∧
      e.model = none ∧ e.sig_id = none ∧ e.have_image = false := by
  obtain ⟨kid, sid, m, p, hk, hs, hp, hget, hfind⟩ :=
    wl_entry_final cs sF spre i c fw sv nm h hc hpre hfresh hfw ht hsic hsict hname
      j wc hj hn
  have hsidn : sid = none := by
    rw [hnosig] at hs
    exact ((Except.ok.injEq _ _).mp hs).symm
  subst hsidn
  exact ⟨m, _, hget, hfind, rfl, rfl, rfl⟩

/-- C2 witness: a concrete two-device whitelabel group evaluated end to end. -/
theorem claim_C2_witness :
    crosConfigInit
        [[("name", Value.str "A"), ("identity", Value.dict [("c", Value.str "1")]),
          ("firmware", Value.dict [("main-image", Value.str "imgA"),
            ("ec-image", Value.str "ecA")]),
          ("firmware-signing", Value.dict [("key-id", Value.str "KA"),
            ("sig-id-in-customization-id", Value.bool true)])],
         [("name", Value.str "A"), ("identity", Value.dict [("c", Value.str "2")]),
          ("firmware-signing", Value.dict [("key-id", Value.str "KB"),
            ("signature-id", Value.str "sigB")])]] =
      .ok (resolvedState
        [[("name", Value.str "A"), ("identity", Value.dict [("c", Value.str "1")]),
          ("firmware", Value.dict [("main-image", Value.str "imgA"),
            ("ec-image", Value.str "ecA")]),
          ("firmware-signing", Value.dict [("key-id", Value.str "KA"),
            ("sig-id-in-customization-id", Value.bool true)])],
         [("name", Value.str "A"), ("identity", Value.dict [("c", Value.str "2")]),
          ("firmware-signing", Value.dict [("key-id", Value.str "KB"),
            ("signature-id", Value.str "sigB")])]]) ∧
    (∃ kid sid m e,
      GetValue (prop1 [("name", Value.str "A"),
          ("identity", Value.dict [("c", Value.str "2")]),
          ("firmware-signing", Value.dict [("key-id", Value.str "KB"),
            ("signature-id", Value.str "sigB")])] "firmware-signing")
        "key-id" = .ok kid ∧
      GetValue (prop1 [("name", Value.str "A"),
          ("identity", Value.dict [("c", Value.str "2")]),
          ("firmware-signing", Value.dict [("key-id", Value.str "KB"),
            ("signature-id", Value.str "sigB")])] "firmware-signing")
        "signature-id" = .ok sid ∧
      (resolvedState
        [[("name", Value.str "A"), ("identity", Value.dict [("c", Value.str "1")]),
          ("firmware", Value.dict [("main-image", Value.str "imgA"),
            ("ec-image", Value.str "ecA")]),
          ("firmware-signing", Value.dict [("key-id", Value.str "KA"),
            ("sig-id-in-customization-id", Value.bool true)])],
         [("name", Value.str "A"), ("identity", Value.dict [("c", Value.str "2")]),
          ("firmware-signing", Value.dict [("key-id", Value.str "KB"),
            ("signature-id", Value.str "sigB")])]]).maps.get? 1 = some m ∧
      fwLookup m sid = some e ∧
      e.model = sid ∧ e.key_id = kid ∧ e.sig_id = sid ∧ e.have_image = false ∧
      e.main_image_uri = pyOr (some (Value.str "imgA")) (Value.str "") ∧
      e.ec_image_uri = pyOr (some (Value.str "ecA")) (Value.str "")) := by
  refine ⟨rfl, ?_⟩
  exact claim_C2
    [[("name", Value.str "A"), ("identity", Value.dict [("c", Value.str "1")]),
      ("firmware", Value.dict [("main-image", Value.str "imgA"),
        ("ec-image", Value.str "ecA")]),
      ("firmware-signing", Value.dict [("key-id", Value.str "KA"),
        ("sig-id-in-customization-id", Value.bool true)])],
     [("name", Value.str "A"), ("identity", Value.dict [("c", Value.str "2")]),
      ("firmware-signing", Value.dict [("key-id", Value.str "KB"),
        ("signature-id", Value.str "sigB")])]]
    (resolvedState
      [[("name", Value.str "A"), ("identity", Value.dict [("c", Value.str "1")]),
        ("firmware", Value.dict [("main-image", Value.str "imgA"),
          ("ec-image", Value.str "ecA")]),
        ("firmware-signing", Value.dict [("key-id", Value.str "KA"),
          ("sig-id-in-customization-id", Value.bool true)])],
       [("name", Value.str "A"), ("identity", Value.dict [("c", Value.str "2")]),
        ("firmware-signing", Value.dict [("key-id", Value.str "KB"),
          ("signature-id", Value.str "sigB")])]])
    (initState
      [[("name", Value.str "A"), ("identity", Value.dict [("c", Value.str "1")]),
        ("firmware", Value.dict [("main-image", Value.str "imgA"),
          ("ec-image", Value.str "ecA")]),
        ("firmware-signing", Value.dict [("key-id", Value.str "KA"),
          ("sig-id-in-customization-id", Value.bool true)])],
       [("name", Value.str "A"), ("identity", Value.dict [("c", Value.str "2")]),
        ("firmware-signing", Value.dict [("key-id", Value.str "KB"),
          ("signature-id", Value.str "sigB")])]])
    0
    [("name", Value.str "A"), ("identity", Value.dict [("c", Value.str "1")]),
     ("firmware", Value.dict [("main-image", Value.str "imgA"),
       ("ec-image", Value.str "ecA")]),
     ("firmware-signing", Value.dict [("key-id", Value.str "KA"),
       ("sig-id-in-customization-id", Value.bool true)])]
    (Value.dict [("main-image", Value.str "imgA"), ("ec-image", Value.str "ecA")])
    (some (Value.bool true)) (some (Value.str "imgA")) (some (Value.str "ecA")) "A"
    rfl rfl rfl (by simp [initState]) rfl rfl rfl rfl rfl rfl rfl
    1
    [("name", Value.str "A"), ("identity", Value.dict [("c", Value.str "2")]),
     ("firmware-signing", Value.dict [("key-id", Value.str "KB"),
       ("signature-id", Value.str "sigB")])]
    rfl rfl

/-- C10 witness: a sibling lacking `signature-id` evaluated end to end. -/
theorem claim_C10_witness :
    crosConfigInit
        [[("name", Value.str "A"), ("identity", Value.dict [("c", Value.str "1")]),
          ("firmware", Value.dict [("main-image", Value.str "imgA")]),
          ("firmware-signing", Value.dict
            [("sig-id-in-customization-id", Value.bool true)])],
         [("name", Value.str "A"), ("identity", Value.dict [("c", Value.str "3")]),
          ("firmware-signing", Value.dict [("key-id", Value.str "KC")])]] =
      .ok (resolvedState
        [[("name", Value.str "A"), ("identity", Value.dict [("c", Value.str "1")]),
          ("firmware", Value.dict [("main-image", Value.str "imgA")]),
          ("firmware-signing", Value.dict
            [("sig-id-in-customization-id", Value.bool true)])],
         [("name", Value.str "A"), ("identity", Value.dict [("c", Value.str "3")]),
          ("firmware-signing", Value.dict [("key-id", Value.str "KC")])]]) ∧
    (∃ m e,
      (resolvedState
        [[("name", Value.str "A"), ("identity", Value.dict [("c", Value.str "1")]),
          ("firmware", Value.dict [("main-image", Value.str "imgA")]),
          ("firmware-signing", Value.dict
            [("sig-id-in-customization-id", Value.bool true)])],
         [("name", Value.str "A"), ("identity", Value.dict [("c", Value.str "3")]),
          ("firmware-signing", Value.dict [("key-id", Value.str "KC")])]]).maps.get? 1 =
        some m ∧
      fwLookup m none = some e ∧
      e.model = none ∧ e.sig_id = none ∧ e.have_image = false) := by
  refine ⟨rfl, ?_⟩
  exact claim_C10
    [[("name", Value.str "A"), ("identity", Value.dict [("c", Value.str "1")]),
      ("firmware", Value.dict [("main-image", Value.str "imgA")]),
      ("firmware-signing", Value.dict
        [("sig-id-in-customization-id", Value.bool true)])],
     [("name", Value.str "A"), ("identity", Value.dict [("c", Value.str "3")]),
      ("firmware-signing", Value.dict [("key-id", Value.str "KC")])]]
    (resolvedState
      [[("name", Value.str "A"), ("identity", Value.dict [("c", Value.str "1")]),
        ("firmware", Value.dict [("main-image", Value.str "imgA")]),
        ("firmware-signing", Value.dict
          [("sig-id-in-customization-id", Value.bool true)])],
       [("name", Value.str "A"), ("identity", Value.dict [("c", Value.str "3")]),
        ("firmware-signing", Value.dict [("key-id", Value.str "KC")])]])
    (initState
      [[("name", Value.str "A"), ("identity", Value.dict [("c", Value.str "1")]),
        ("firmware", Value.dict [("main-image", Value.str "imgA")]),
        ("firmware-signing", Value.dict
          [("sig-id-in-customization-id", Value.bool true)])],
       [("name", Value.str "A"), ("identity", Value.dict [("c", Value.str "3")]),
        ("firmware-signing", Value.dict [("key-id", Value.str "KC")])]])
    0
    [("name", Value.str "A"), ("identity", Value.dict [("c", Value.str "1")]),
     ("firmware", Value.dict [("main-image", Value.str "imgA")]),
     ("firmware-signing", Value.dict
       [("sig-id-in-customization-id", Value.bool true)])]
    (Value.dict [("main-image", Value.str "imgA")])
    (some (Value.bool true)) "A" 1
    [("name", Value.str "A"), ("identity", Value.dict [("c", Value.str "3")]),
     ("firmware-signing", Value.dict [("key-id", Value.str "KC")])]
    rfl rfl rfl (by simp [initState]) rfl rfl rfl rfl rfl rfl rfl rfl

theorem slookup_mono {α : Type} (l ext : List (String × α)) (k : String)
    (v : α) (h : slookup l k = some v) : slookup (l ++ ext) k = some v := by
  rw [slookup_append, h]; rfl

theorem slookup_append_new {α : Type} (l : List (String × α)) (k : String)
    (v : α) (h : slookup l k = none) : slookup (l ++ [(k, v)]) k = some v := by
  rw [slookup_append, h]
  simp [slookup]

theorem Rmono_slookup (s s' : RState) (hm : Rmono s s') (k : String) (v : Value)
    (h : slookup s.fw_by_model k = some v) :
    slookup s'.fw_by_model k = some v := by
  obtain ⟨_, _, ext, hext⟩ := hm
  rw [hext]
  exact slookup_mono _ _ _ _ h

/-- Every entry with `have_image = true` carries the shared-model name the
descriptor table assigns to its own device's firmware descriptor string. -/
def SharedInv (cs : List Dict) (s : RState) : Prop :=
  ∀ j d m k e, cs.get? j = some d → s.maps.get? j = some m → (k, e) ∈ m →
    e.have_image = true →
    ∃ fwj, GetFirmwareConfig d = .ok fwj ∧
      slookup s.fw_by_model (pyStr fwj) = some e.shared_model

theorem wlStep_SharedInv (cs : List Dict) (name : String) (info : FirmwareInfo)
    (s : RState) (j' : Nat) (s' : RState)
    (h : wlStep cs name info s j' = .ok s') (hs : SharedInv cs s) :
    SharedInv cs s' := by
  rcases wlStep_elim cs name info s j' s' h
    with rfl | ⟨wc, kid, sid, _, _, _, _, hh, hm, hf, _⟩
  · exact hs
  · intro j d m k e hj hget hmem himg
    rw [hm] at hget
    rw [hf]
    by_cases hjj : j = j'
    · subst hjj
      rw [get?_modifyIdx_self] at hget
      cases h0 : s.maps.get? j with
      | none => rw [h0] at hget; exact absurd hget (by simp)
      | some m0 =>
        rw [h0] at hget
        simp only [Option.map] at hget
        cases hget
        rcases mem_odInsert m0 sid k _ e hh hmem with h1 | ⟨_, h1⟩
        · exact hs j d m0 k e hj h0 h1 himg
        · rw [h1] at himg
          exact absurd himg (by simp)
    · rw [get?_modifyIdx_other s.maps j' j _ hjj] at hget
      exact hs j d m k e hj hget hmem himg

theorem stepDevice_SharedInv (cs : List Dict) (s : RState) (k' : Nat)
    (s' : RState) (h : stepDevice cs s k' = .ok s') (hs : SharedInv cs s) :
    SharedInv cs s' := by
  rcases stepDevice_elim cs s k' s' h with rfl | ⟨ck, fw, p, hck, hfwck, _, _, hp, hrest⟩
  · exact hs
  · obtain ⟨_, hfbm, _, _, _, hsm, _, _, _⟩ := planConfig_shape ck (identityKey ck) fw
      s.fw_by_model s.processed p hp
    have hext : ∃ ext, p.fw_by_model = s.fw_by_model ++ ext := by
      rcases hfbm with ⟨_, h2⟩ | ⟨_, fwd, _, h2⟩
      · exact ⟨[], by rw [h2, List.append_nil]⟩
      · exact ⟨_, h2⟩
    have hmid : SharedInv cs
        { maps := modifyIdx s.maps k'
            (fun m => odInsert m (some (Value.str p.name)) p.info)
          fw_by_model := p.fw_by_model
          processed := p.processed } := by
      intro j d m k e hj hget hmem himg
      simp only at hget
      by_cases hjj : j = k'
      · subst hjj
        rw [get?_modifyIdx_self] at hget
        cases h0 : s.maps.get? j with
        | none => rw [h0] at hget; exact absurd hget (by simp)
        | some m0 =>
          rw [h0] at hget
          simp only [Option.map] at hget
          cases hget
          rcases mem_odInsert m0 (some (Value.str p.name)) k p.info e rfl hmem
            with h1 | ⟨_, h1⟩
          · obtain ⟨fwj, hfwj, hlk⟩ := hs j d m0 k e hj h0 h1 himg
            refine ⟨fwj, hfwj, ?_⟩
            obtain ⟨ext, hext'⟩ := hext
            rw [hext']
            exact slookup_mono _ _ _ _ hlk
          · rw [hj] at hck
            cases hck
            refine ⟨fw, hfwck, ?_⟩
            rw [h1]
            exact hsm
      · rw [get?_modifyIdx_other s.maps k' j _ hjj] at hget
        obtain ⟨fwj, hfwj, hlk⟩ := hs j d m k e hj hget hmem himg
        refine ⟨fwj, hfwj, ?_⟩
        obtain ⟨ext, hext'⟩ := hext
        rw [hext']
        exact slookup_mono _ _ _ _ hlk
    rcases hrest with ⟨_, hfold⟩ | ⟨_, hs'⟩
    · exact foldlM_preserve (SharedInv cs) _
        (fun a b c h hx => wlStep_SharedInv cs p.name p.info a b c h hx)
        _ _ _ hfold hmid
    · rw [hs']; exact hmid

theorem SharedInv_final (cs : List Dict) (s : RState)
    (h : crosConfigInit cs = .ok s) : SharedInv cs s := by
  have h' : runSteps cs (initState cs) (List.range cs.length) = .ok s := h
  have hinit : SharedInv cs (initState cs) := by
    intro j d m k e _ hget hmem _
    simp only [initState, List.get?_map] at hget
    cases h0 : cs.get? j with
    | none => rw [h0] at hget; exact absurd hget (by simp)
    | some c =>
      rw [h0] at hget
      simp only [Option.map] at hget
      cases hget
      exact absurd hmem (by simp)
  exact foldlM_preserve (SharedInv cs) _
    (fun a b c hx hy => stepDevice_SharedInv cs a b c hx hy) _ _ _ h' hinit

/-- C3 (amended): two DeviceConfigs with identical firmware descriptor
string-renderings agree on the sharedModel of every pair of entries CREATED
FOR THE DEVICES THEMSELVES (the `hasImage = true` base entries); a
whitelabel-derived copy (`hasImage = false`) received from another device's
rescan can carry that other group's sharedModel (see the counterexample). -/
theorem claim_C3 (cs : List Dict) (s : RState) (i1 i2 : Nat) (d1 d2 : Dict)
    (f1 f2 : Value) (m1 m2 : FwMap) (k1 k2 : Option Value)
    (e1 e2 : FirmwareInfo)
    (h : crosConfigInit cs = .ok s)
    (h1 : cs.get? i1 = some d1) (h2 : cs.get? i2 = some d2)
    (hf1 : GetFirmwareConfig d1 = .ok f1) (hf2 : GetFirmwareConfig d2 = .ok f2)
    (heq : pyStr f1 = pyStr f2)
    (hm1 : s.maps.get? i1 = some m1) (hm2 : s.maps.get? i2 = some m2)
    (he1 : (k1, e1) ∈ m1) (he2 : (k2, e2) ∈ m2)
    (hi1 : e1.have_image = true) (hi2 : e2.have_image = true) :
    e1.shared_model = e2.shared_model := by
  have hinv := SharedInv_final cs s h
  obtain ⟨fw1, hfw1, hlk1⟩ := hinv i1 d1 m1 k1 e1 h1 hm1 he1 hi1
  obtain ⟨fw2, hfw2, hlk2⟩ := hinv i2 d2 m2 k2 e2 h2 hm2 he2 hi2
  rw [hf1] at hfw1
  rw [hf2] at hfw2
  have hv1 : f1 = fw1 := (Except.ok.injEq _ _).mp hfw1
  have hv2 : f2 = fw2 := (Except.ok.injEq _ _).mp hfw2
  rw [← hv1] at hlk1
  rw [← hv2, ← heq] at hlk2
  rw [hlk1] at hlk2
  exact (Option.some.injEq _ _).mp hlk2

/-- C3 counterexample: `devD1` and `devD2` have byte-identical firmware
descriptor renderings, yet `devD1`'s only entry (a whitelabel copy received
from `devT2`) carries sharedModel `'B'` while `devD2`'s entry carries
`'C'` — refuting the claim over ALL entries. -/
theorem claim_C3_cex :
    crosConfigInit [devT2, devD1, devD2] =
      .ok (resolvedState [devT2, devD1, devD2]) ∧
    GetFirmwareConfig devD1 = .ok (Value.dict [("main-image", Value.str "img1")]) ∧
    GetFirmwareConfig devD2 = .ok (Value.dict [("main-image", Value.str "img1")]) ∧
    (some (Value.str "s1"), entD1) ∈
      (resolvedState [devT2, devD1, devD2]).maps.getD 1 [] ∧
    (some (Value.str "C"), entD2) ∈
      (resolvedState [devT2, devD1, devD2]).maps.getD 2 [] ∧
    entD1.shared_model = Value.str "B" ∧
    entD2.shared_model = Value.str "C" ∧
    Value.str "B" ≠ Value.str "C" := by
  refine ⟨rfl, rfl, rfl, List.mem_of_mem_head? rfl, List.mem_of_mem_head? rfl,
    rfl, rfl, ?_⟩
  intro hcontra
  injection hcontra with hs
  exact absurd hs (by decide)

/-- C3 witness: two devices sharing a descriptor, both base-processed. -/
theorem claim_C3_witness :
    crosConfigInit [devX, devY] = .ok (resolvedState [devX, devY]) ∧
    entX.have_image = true ∧ entY.have_image = true ∧
    entX.shared_model = entY.shared_model := by
  refine ⟨rfl, rfl, rfl, ?_⟩
  refine claim_C3 [devX, devY] (resolvedState [devX, devY]) 0 1 devX devY
    (Value.dict [("main-image", Value.str "m")])
    (Value.dict [("main-image", Value.str "m")])
    ((resolvedState [devX, devY]).maps.getD 0 [])
    ((resolvedState [devX, devY]).maps.getD 1 [])
    (some (Value.str "x")) (some (Value.str "y")) entX entY
    rfl rfl rfl rfl rfl rfl rfl rfl
    (List.mem_of_mem_head? rfl) (List.mem_of_mem_head? rfl) rfl rfl

/-- C6 (amended): at the first encounter of a firmware descriptor string the
resolver registers the firmware subtree's own `name` value when present and
otherwise the device's name; that registration persists to the end of the
run, and every entry CREATED FOR a device with that descriptor (base,
`hasImage = true` entries — of this device and of every later one) carries
the registered name as its sharedModel.  A whitelabel copy received from
another group's rescan can carry that other group's name instead (see the
counterexample). -/
theorem claim_C6 (cs : List Dict) (sF spre : RState) (i : Nat) (c : Dict)
    (fw : Value) (fwd : List (String × Value)) (nm : String)
    (h : crosConfigInit cs = .ok sF)
    (hc : cs.get? i = some c)
    (hpre : runSteps cs (initState cs) (List.range i) = .ok spre)
    (hfresh : identityKey c ∉ spre.processed)
    (hfw : GetFirmwareConfig c = .ok fw) (ht : truthy fw = true)
    (hdict : fw = Value.dict fwd)
    (hnew : slookup spre.fw_by_model (pyStr fw) = none)
    (hname : GetName c = .ok nm) :
    slookup sF.fw_by_model (pyStr fw) =
      some ((slookup fwd "name").getD (Value.str nm)) ∧
    (∀ j d fwj m k e, cs.get? j = some d → GetFirmwareConfig d = .ok fwj →
      pyStr fwj = pyStr fw → sF.maps.get? j = some m → (k, e) ∈ m →
      e.have_image = true →
      e.shared_model = (slookup fwd "name").getD (Value.str nm)) := by
  have hi : i < cs.length := by
    rcases List.get?_eq_some.mp hc with ⟨h1, _⟩
    exact h1
  have h' : runSteps cs (initState cs) (List.range cs.length) = .ok sF := h
  rw [range_split i cs.length hi] at h'
  obtain ⟨spre', hpre', hrest⟩ := runSteps_ok_split cs _ sF _ _ h'
  rw [hpre] at hpre'
  have hspre : spre' = spre := (Except.ok.injEq _ _).mp hpre'.symm
  rw [hspre] at hrest
  rw [runSteps_cons] at hrest
  cases hstep : stepDevice cs spre i with
  | error e => rw [hstep] at hrest; exact absurd hrest (by simp)
  | ok smid =>
  rw [hstep] at hrest
  simp only [ebind_ok] at hrest
  rw [stepDevice_eq_processConfig cs spre i c fw hc hfw ht hfresh] at hstep
  obtain ⟨p, hp, hrest2⟩ := processConfig_elim cs c i (identityKey c) fw spre smid hstep
  obtain ⟨hnamep, hfbm, _, _, _, _, _, _, _⟩ := planConfig_shape c (identityKey c) fw
    spre.fw_by_model spre.processed p hp
  have hpname : p.name = nm := by
    rw [hname] at hnamep
    exact ((Except.ok.injEq _ _).mp hnamep).symm
  rcases hfbm with ⟨hsome, _⟩ | ⟨_, fwd', hfw'd, hfbm2⟩
  · rw [hnew] at hsome
    exact absurd hsome (by simp)
  · have hfwd : fwd' = fwd := by
      rw [hdict] at hfw'd
      injection hfw'd with h1
      exact h1.symm
    have hreg : slookup p.fw_by_model (pyStr fw) =
        some ((slookup fwd "name").getD (Value.str nm)) := by
      rw [hfbm2, hfwd, hpname]
      exact slookup_append_new _ _ _ hnew
    have hsmid : slookup smid.fw_by_model (pyStr fw) =
        some ((slookup fwd "name").getD (Value.str nm)) := by
      rcases hrest2 with ⟨_, hfold⟩ | ⟨_, hs'⟩
      · exact Rmono_slookup
          { maps := modifyIdx spre.maps i
              (fun m => odInsert m (some (Value.str p.name)) p.info)
            fw_by_model := p.fw_by_model
            processed := p.processed } smid
          (foldlM_rel Rmono Rmono_refl Rmono_trans _
            (fun a b c h => wlStep_mono cs p.name p.info a b c h) _ _ _ hfold)
          _ _ hreg
      · rw [hs']; exact hreg
    have hfinal : slookup sF.fw_by_model (pyStr fw) =
        some ((slookup fwd "name").getD (Value.str nm)) :=
      Rmono_slookup smid sF (runSteps_mono cs smid _ sF hrest) _ _ hsmid
    refine ⟨hfinal, ?_⟩
    intro j d fwj m k e hj hfwj heqr hm hmem himg
    obtain ⟨fwj', hfwj', hlk⟩ := SharedInv_final cs sF h j d m k e hj hm hmem himg
    rw [hfwj] at hfwj'
    have hv : fwj = fwj' := (Except.ok.injEq _ _).mp hfwj'
    rw [← hv, heqr, hfinal] at hlk
    exact ((Option.some.injEq _ _).mp hlk).symm

/-- C6 counterexample: descriptor `{'main-image': 'img1'}` is first
encountered at `devE` and registered with shared-model `'C'`, yet the later
device `devD1` with the same descriptor receives (from `devT2`'s whitelabel
rescan) an entry whose sharedModel is `'B'` — refuting "every later device
with the same descriptor receives this registered name". -/
theorem claim_C6_cex :
    crosConfigInit [devE, devT2, devD1] =
      .ok (resolvedState [devE, devT2, devD1]) ∧
    GetFirmwareConfig devE = .ok (Value.dict [("main-image", Value.str "img1")]) ∧
    GetFirmwareConfig devD1 = .ok (Value.dict [("main-image", Value.str "img1")]) ∧
    slookup (resolvedState [devE, devT2, devD1]).fw_by_model
        (pyStr (Value.dict [("main-image", Value.str "img1")])) =
      some (Value.str "C") ∧
    (some (Value.str "s1"), entD1G) ∈
      (resolvedState [devE, devT2, devD1]).maps.getD 2 [] ∧
    entD1G.shared_model = Value.str "B" ∧
    Value.str "B" ≠ Value.str "C" := by
  refine ⟨rfl, rfl, rfl, rfl, List.mem_of_mem_head? rfl, rfl, ?_⟩
  intro hcontra
  injection hcontra with hs
  exact absurd hs (by decide)

/-- C6 witness: an explicit firmware `name` wins over the device name. -/
theorem claim_C6_witness :
    crosConfigInit [devW] = .ok (resolvedState [devW]) ∧
    slookup (resolvedState [devW]).fw_by_model
        (pyStr (Value.dict
          [("name", Value.str "fwname"), ("main-image", Value.str "m")])) =
      some (Value.str "fwname") ∧
    entW.have_image = true ∧
    entW.shared_model = Value.str "fwname" := by
  have hmain := claim_C6 [devW] (resolvedState [devW]) (initState [devW]) 0 devW
    (Value.dict [("name", Value.str "fwname"), ("main-image", Value.str "m")])
    [("name", Value.str "fwname"), ("main-image", Value.str "m")] "dev"
    rfl rfl rfl (by simp [initState]) rfl rfl rfl rfl rfl
  refine ⟨rfl, ?_, rfl, ?_⟩
  · exact hmain.1
  · exact hmain.2 0 devW
      (Value.dict [("name", Value.str "fwname"), ("main-image", Value.str "m")])
      ((resolvedState [devW]).maps.getD 0 [])
      (some (Value.str "dev")) entW rfl rfl rfl rfl
      (List.mem_of_mem_head? rfl) rfl

theorem scalarKeyEq_symm (a b : Value) (h : scalarKeyEq a b = true) :
    scalarKeyEq b a = true := by
  cases a <;> cases b <;> simp_all [scalarKeyEq]

theorem scalarKeyEq_trans (a b c : Value) (h1 : scalarKeyEq a b = true)
    (h2 : scalarKeyEq b c = true) : scalarKeyEq a c = true := by
  cases a <;> cases b <;> cases c <;>
    simp only [scalarKeyEq, decide_eq_true_eq, Bool.false_eq_true] at h1 h2 ⊢ <;>
    (try exact h1.trans h2) <;> split_ifs at h1 h2 ⊢ <;> simp_all

theorem keyEq_symm (a b : Option Value) (h : keyEq a b = true) :
    keyEq b a = true := by
  cases a <;> cases b <;> simp_all [keyEq]
  exact scalarKeyEq_symm _ _ h

theorem keyEq_trans (a b c : Option Value) (h1 : keyEq a b = true)
    (h2 : keyEq b c = true) : keyEq a c = true := by
  cases a <;> cases b <;> cases c <;> simp_all [keyEq]
  exact scalarKeyEq_trans _ _ _ h1 h2

theorem patch_nil (m : FwMap) : patch m [] = m := rfl

theorem patch_cons (m : FwMap) (p : Option Value × FirmwareInfo)
    (t : List (Option Value × FirmwareInfo)) :
    patch m (p :: t) = patch (odInsert m p.1 p.2) t := rfl

theorem memK_odInsert_self (m : FwMap) (k : Option Value) (v : FirmwareInfo)
    (hh : hashableKey k = true) : memK (odInsert m k v) k = true := by
  induction m with
  | nil => simp [odInsert, memK, keyEq_refl_of_hashable k hh]
  | cons p t ih =>
    simp only [odInsert]
    by_cases hk : keyEq p.1 k = true
    · simp [memK, hk]
    · simp only [if_neg hk, memK, List.any_cons]
      simp only [memK] at ih
      rw [ih]
      simp

theorem memK_odInsert_mono (m : FwMap) (k k' : Option Value) (v : FirmwareInfo)
    (h : memK m k' = true) : memK (odInsert m k v) k' = true := by
  induction m with
  | nil => simp [memK] at h
  | cons p t ih =>
    simp only [memK, List.any_cons, Bool.or_eq_true] at h
    simp only [odInsert]
    by_cases hk : keyEq p.1 k = true
    · simp only [if_pos hk, memK, List.any_cons, Bool.or_eq_true]
      exact h
    · simp only [if_neg hk, memK, List.any_cons, Bool.or_eq_true]
      rcases h with h | h
      · exact Or.inl h
      · exact Or.inr (by simpa [memK] using ih (by simpa [memK] using h))

theorem memK_patch_mono (t : List (Option Value × FirmwareInfo)) :
    ∀ (b : FwMap) (k : Option Value), memK b k = true →
      memK (patch b t) k = true := by
  induction t with
  | nil => intro b k h; exact h
  | cons p t' ih =>
    intro b k h
    rw [patch_cons]
    exact ih _ k (memK_odInsert_mono b p.1 k p.2 h)

theorem fwLookup_odInsert_other (b : FwMap) (k1 k : Option Value)
    (v1 : FirmwareInfo) (hne : keyEq k1 k = false) :
    fwLookup (odInsert b k1 v1) k = fwLookup b k := by
  induction b with
  | nil => simp [odInsert, fwLookup, List.find?, hne]
  | cons p t ih =>
    simp only [odInsert]
    by_cases hk : keyEq p.1 k1 = true
    · simp only [if_pos hk]
      have hpk : keyEq p.1 k = false := by
        by_contra hc
        have h1 : keyEq p.1 k = true := by
          cases h2 : keyEq p.1 k
          · exact absurd h2 hc
          · rfl
        have h2 := keyEq_trans k1 p.1 k (keyEq_symm _ _ hk) h1
        rw [h2] at hne
        exact absurd hne (by simp)
      simp [fwLookup, List.find?, hpk]
    · simp only [if_neg hk]
      by_cases hpk : keyEq p.1 k = true
      · simp [fwLookup, List.find?, hpk]
      · simp only [fwLookup, List.find?] at ih ⊢
        simp only [Bool.not_eq_true] at hpk
        rw [hpk]
        exact ih

theorem odInsert_double_same (n : FwMap) (k k1 : Option Value)
    (v v1 : FirmwareInfo) (hpres : memK n k = true) (hk1 : keyEq k1 k = true) :
    odInsert (odInsert n k v) k1 v1 = odInsert n k1 v1 := by
  induction n with
  | nil => simp [memK] at hpres
  | cons p t ih =>
    simp only [memK, List.any_cons, Bool.or_eq_true] at hpres
    by_cases hpk : keyEq p.1 k = true
    · have hpk1 : keyEq p.1 k1 = true :=
        keyEq_trans p.1 k k1 hpk (keyEq_symm _ _ hk1)
      simp [odInsert, hpk, hpk1]
    · have hpk1 : keyEq p.1 k1 = false := by
        cases hc : keyEq p.1 k1
        · rfl
        · exact absurd (keyEq_trans p.1 k1 k hc hk1) (by simp [hpk])
      have hpres' : memK t k = true := by
        rcases hpres with h | h
        · exact absurd h hpk
        · simpa [memK] using h
      simp [odInsert, hpk, hpk1, ih hpres']

theorem odInsert_comm_distinct (n : FwMap) (k k1 : Option Value)
    (v v1 : FirmwareInfo) (hpres : memK n k = true) (hk1 : keyEq k1 k = false) :
    odInsert (odInsert n k v) k1 v1 = odInsert (odInsert n k1 v1) k v := by
  induction n with
  | nil => simp [memK] at hpres
  | cons p t ih =>
    simp only [memK, List.any_cons, Bool.or_eq_true] at hpres
    by_cases hpk : keyEq p.1 k = true
    · have hpk1 : keyEq p.1 k1 = false := by
        cases hc : keyEq p.1 k1
        · rfl
        · exact absurd (keyEq_trans k1 p.1 k (keyEq_symm _ _ hc) hpk)
            (by simp [hk1])
      simp [odInsert, hpk, hpk1]
    · by_cases hpk1 : keyEq p.1 k1 = true
      · simp [odInsert, hpk, hpk1]
      · have hpres' : memK t k = true := by
          rcases hpres with h | h
          · exact absurd h hpk
          · simpa [memK] using h
        simp [odInsert, hpk, hpk1, ih hpres']

theorem patch_odInsert_overwritten (t : List (Option Value × FirmwareInfo)) :
    ∀ (n : FwMap) (k : Option Value) (v : FirmwareInfo), memK n k = true →
      memK t k = true → patch (odInsert n k v) t = patch n t := by
  induction t with
  | nil => intro n k v _ hmem; simp [memK] at hmem
  | cons p t' ih =>
    intro n k v hpres hmem
    rw [patch_cons, patch_cons]
    by_cases hk1 : keyEq p.1 k = true
    · rw [odInsert_double_same n k p.1 v p.2 hpres hk1]
    · have hk1f : keyEq p.1 k = false := by
        cases hc : keyEq p.1 k
        · rfl
        · exact absurd hc hk1
      have hmem' : memK t' k = true := by
        simp only [memK, List.any_cons, Bool.or_eq_true] at hmem
        rcases hmem with h | h
        · exact absurd h hk1
        · simpa [memK] using h
      rw [odInsert_comm_distinct n k p.1 v p.2 hpres hk1f]
      exact ih _ k v (memK_odInsert_mono n p.1 k p.2 hpres) hmem'

theorem fwLookup_patch_absent (t : List (Option Value × FirmwareInfo)) :
    ∀ (b : FwMap) (k : Option Value), memK t k = false →
      fwLookup (patch b t) k = fwLookup b k := by
  induction t with
  | nil => intro b k _; rfl
  | cons p t' ih =>
    intro b k hmem
    simp only [memK, List.any_cons] at hmem
    have h1 : keyEq p.1 k = false := by
      cases hc : keyEq p.1 k
      · rfl
      · rw [hc] at hmem; simp at hmem
    have h2 : memK t' k = false := by
      cases hc : (t'.any fun p => keyEq p.1 k)
      · simpa [memK] using hc
      · rw [hc] at hmem; simp at hmem
    rw [patch_cons, ih _ k h2, fwLookup_odInsert_other b p.1 k p.2 h1]

theorem odInsert_same_value (n : FwMap) (k : Option Value) (v : FirmwareInfo)
    (hlk : fwLookup n k = some v) : odInsert n k v = n := by
  induction n with
  | nil => simp [fwLookup] at hlk
  | cons p t ih =>
    obtain ⟨pk, pv⟩ := p
    by_cases hk : keyEq pk k = true
    · have hv : pv = v := by
        simp only [fwLookup, List.find?, hk] at hlk
        simpa using hlk
      simp [odInsert, hk, hv]
    · have hlk' : fwLookup t k = some v := by
        simpa [fwLookup, List.find?, hk] using hlk
      simp [odInsert, hk, ih hlk']

theorem patch_absorb (L : List (Option Value × FirmwareInfo)) :
    ∀ (m : FwMap), (∀ p ∈ L, hashableKey p.1 = true) →
      patch (patch m L) L = patch m L := by
  induction L with
  | nil => intro m _; rfl
  | cons q t ih =>
    intro m hhash
    have hq : hashableKey q.1 = true := hhash q (List.mem_cons_self _ _)
    have ht : ∀ p ∈ t, hashableKey p.1 = true :=
      fun p hp => hhash p (List.mem_cons_of_mem _ hp)
    rw [show patch m (q :: t) = patch (odInsert m q.1 q.2) t from rfl]
    rw [patch_cons]
    have hpresb : memK (odInsert m q.1 q.2) q.1 = true :=
      memK_odInsert_self m q.1 q.2 hq
    have hpresn : memK (patch (odInsert m q.1 q.2) t) q.1 = true :=
      memK_patch_mono t _ q.1 hpresb
    by_cases hmem : memK t q.1 = true
    · rw [patch_odInsert_overwritten t _ q.1 q.2 hpresn hmem]
      exact ih _ ht
    · have hmem' : memK t q.1 = false := by
        cases hc : memK t q.1
        · rfl
        · exact absurd hc hmem
      have hlkb : fwLookup (odInsert m q.1 q.2) q.1 = some q.2 :=
        fwLookup_odInsert_self m q.1 q.2 hq
      have hlkn : fwLookup (patch (odInsert m q.1 q.2) t) q.1 = some q.2 := by
        rw [fwLookup_patch_absent t _ q.1 hmem']
        exact hlkb
      rw [odInsert_same_value _ q.1 q.2 hlkn]
      exact ih _ ht

theorem wlStep_out_of_range (cs : List Dict) (name : String)
    (info : FirmwareInfo) (s : RState) (j : Nat) (hj : cs.get? j = none) :
    wlStep cs name info s j = .ok s := by
  simp only [wlStep, hj]

theorem wlStep_eval (cs : List Dict) (name : String) (info : FirmwareInfo)
    (s : RState) (j : Nat) (wc : Dict) (kid sid : Option Value)
    (hj : cs.get? j = some wc) (hn : GetName wc = .ok name)
    (hk : GetValue (prop1 wc "firmware-signing") "key-id" = .ok kid)
    (hsg : GetValue (prop1 wc "firmware-signing") "signature-id" = .ok sid)
    (hh : hashableKey sid = true) :
    wlStep cs name info s j = .ok
      { maps := modifyIdx s.maps j (fun m => odInsert m sid
          { info with
              model := sid
              key_id := kid
              have_image := false
              sig_id := sid })
        fw_by_model := s.fw_by_model
        processed := addIfAbsent s.processed (identityKey wc) } := by
  simp only [wlStep, hj, hn, ebind_ok, if_pos]
  rw [GetProperties_identity wc]
  simp only [ebind_ok]
  rw [GetProperties_signer wc]
  simp only [ebind_ok, hk, hsg, if_pos hh]
  rw [identityKey_eq]

theorem wlStep_skip_eval (cs : List Dict) (name : String) (info : FirmwareInfo)
    (s : RState) (j : Nat) (wc : Dict) (wname : String)
    (hj : cs.get? j = some wc) (hn : GetName wc = .ok wname)
    (hm : wname ≠ name) :
    wlStep cs name info s j = .ok s := by
  simp only [wlStep, hj, hn, ebind_ok, if_neg hm]

theorem wlStep_param (cs : List Dict) (name : String) (info : FirmwareInfo)
    (s : RState) (j : Nat) (s' : RState)
    (h : wlStep cs name info s j = .ok s') :
    ∃ σ : Script, s'.maps = applyScript s.maps σ ∧
      (∀ e ∈ σ, hashableKey e.2.1 = true) ∧
      ∀ M' : List FwMap,
        wlStep cs name info
          { maps := M', fw_by_model := s.fw_by_model, processed := s.processed } j =
        .ok { maps := applyScript M' σ, fw_by_model := s'.fw_by_model,
              processed := s'.processed } := by
  cases hj : cs.get? j with
  | none =>
    rw [wlStep_out_of_range cs name info s j hj] at h
    cases h
    refine ⟨[], rfl, by simp, fun M' => ?_⟩
    exact wlStep_out_of_range cs name info _ j hj
  | some wc =>
    cases hn : GetName wc with
    | error e =>
      simp only [wlStep, hj, hn, ebind_error] at h
      exact absurd h (by simp)
    | ok wname =>
      by_cases hm : wname = name
      · subst hm
        simp only [wlStep, hj, hn, ebind_ok, if_pos] at h
        rw [GetProperties_identity wc] at h
        simp only [ebind_ok] at h
        rw [GetProperties_signer wc] at h
        simp only [ebind_ok] at h
        cases hk : GetValue (prop1 wc "firmware-signing") "key-id" with
        | error e => rw [hk] at h; exact absurd h (by simp)
        | ok kid =>
        rw [hk] at h
        simp only [ebind_ok] at h
        cases hsg : GetValue (prop1 wc "firmware-signing") "signature-id" with
        | error e => rw [hsg] at h; exact absurd h (by simp)
        | ok sid =>
        rw [hsg] at h
        simp only [ebind_ok] at h
        by_cases hh : hashableKey sid = true
        · rw [if_pos hh] at h
          cases h
          refine ⟨[(j, sid, { info with
              model := sid
              key_id := kid
              have_image := false
              sig_id := sid })], ?_, ?_, ?_⟩
          · rfl
          · intro e he
            simp only [List.mem_singleton] at he
            rw [he]
            exact hh
          · intro M'
            rw [wlStep_eval cs wname info _ j wc kid sid hj hn hk hsg hh]
            rw [identityKey_eq]
            rfl
        · rw [if_neg hh] at h
          exact absurd h (by simp)
      · rw [wlStep_skip_eval cs name info s j wc wname hj hn hm] at h
        cases h
        refine ⟨[], rfl, by simp, fun M' => ?_⟩
        exact wlStep_skip_eval cs name info _ j wc wname hj hn hm

theorem applyScript_append (M : List FwMap) (σ1 σ2 : Script) :
    applyScript M (σ1 ++ σ2) = applyScript (applyScript M σ1) σ2 := by
  simp only [applyScript, List.foldl_append]

theorem wlScanFold_param (cs : List Dict) (name : String) (info : FirmwareInfo) :
    ∀ (L : List Nat) (s s' : RState),
      L.foldlM (wlStep cs name info) s = .ok s' →
      ∃ σ : Script, s'.maps = applyScript s.maps σ ∧
        (∀ e ∈ σ, hashableKey e.2.1 = true) ∧
        ∀ M' : List FwMap,
          L.foldlM (wlStep cs name info)
            { maps := M', fw_by_model := s.fw_by_model, processed := s.processed } =
          .ok { maps := applyScript M' σ, fw_by_model := s'.fw_by_model,
                processed := s'.processed } := by
  intro L
  induction L with
  | nil =>
    intro s s' h
    simp only [List.foldlM] at h
    cases h
    exact ⟨[], rfl, by simp, fun M' => rfl⟩
  | cons a t ih =>
    intro s s' h
    simp only [List.foldlM] at h
    cases hx : wlStep cs name info s a with
    | error e => rw [hx] at h; exact absurd h (by simp)
    | ok s1 =>
    rw [hx] at h
    obtain ⟨σ1, hm1, hh1, hall1⟩ := wlStep_param cs name info s a s1 hx
    obtain ⟨σ2, hm2, hh2, hall2⟩ := ih s1 s' h
    refine ⟨σ1 ++ σ2, ?_, ?_, ?_⟩
    · rw [applyScript_append, ← hm1, hm2]
    · intro e he
      rcases List.mem_append.mp he with h1 | h1
      · exact hh1 e h1
      · exact hh2 e h1
    · intro M'
      simp only [List.foldlM]
      rw [hall1 M']
      have h2 := hall2 (applyScript M' σ1)
      rw [applyScript_append]
      exact h2

theorem processConfig_param (cs : List Dict) (c : Dict) (i : Nat)
    (identity : String) (fw : Value) (s s' : RState)
    (h : processConfig cs c i identity fw s = .ok s') :
    ∃ σ : Script, s'.maps = applyScript s.maps σ ∧
      (∀ e ∈ σ, hashableKey e.2.1 = true) ∧
      ∀ M' : List FwMap,
        processConfig cs c i identity fw
          { maps := M', fw_by_model := s.fw_by_model, processed := s.processed } =
        .ok { maps := applyScript M' σ, fw_by_model := s'.fw_by_model,
              processed := s'.processed } := by
  simp only [processConfig] at h ⊢
  cases hp : planConfig c identity fw s.fw_by_model s.processed with
  | error e => rw [hp] at h; exact absurd h (by simp)
  | ok p =>
  rw [hp] at h
  simp only [ebind_ok] at h
  cases hsic : p.sic with
  | false =>
    rw [hsic] at h
    simp only [Bool.false_eq_true, if_neg] at h
    cases h
    refine ⟨[(i, some (Value.str p.name), p.info)], rfl,
      (by intro e he; simp only [List.mem_singleton] at he; subst he; rfl),
      fun M' => ?_⟩
    simp only [ebind_ok, hsic, Bool.false_eq_true, if_false]
    rfl
  | true =>
    rw [hsic] at h
    simp only [if_pos] at h
    obtain ⟨σ2, hm2, hh2, hall2⟩ := wlScanFold_param cs p.name p.info _ _ _ h
    refine ⟨(i, some (Value.str p.name), p.info) :: σ2, ?_, ?_, fun M' => ?_⟩
    · rw [hm2]; rfl
    · intro e he
      rcases List.mem_cons.mp he with h1 | h1
      · rw [h1]; rfl
      · exact hh2 e h1
    · simp only [ebind_ok, hsic, if_true]
      exact hall2 (modifyIdx M' i
        (fun m => odInsert m (some (Value.str p.name)) p.info))

theorem stepDevice_param (cs : List Dict) (s : RState) (i : Nat) (s' : RState)
    (h : stepDevice cs s i = .ok s') :
    ∃ σ : Script, s'.maps = applyScript s.maps σ ∧
      (∀ e ∈ σ, hashableKey e.2.1 = true) ∧
      ∀ M' : List FwMap,
        stepDevice cs
          { maps := M', fw_by_model := s.fw_by_model, processed := s.processed } i =
        .ok { maps := applyScript M' σ, fw_by_model := s'.fw_by_model,
              processed := s'.processed } := by
  cases hc : cs.get? i with
  | none =>
    rw [stepDevice_none cs s i hc] at h
    cases h
    exact ⟨[], rfl, by simp, fun M' => stepDevice_none cs _ i hc⟩
  | some c =>
    cases hfw : GetFirmwareConfig c with
    | error e =>
      simp only [stepDevice, hc, hfw, ebind_error] at h
      exact absurd h (by simp)
    | ok fw =>
      by_cases hg : truthy fw = true ∧ identityKey c ∉ s.processed
      · rw [stepDevice_eq_processConfig cs s i c fw hc hfw hg.1 hg.2] at h
        obtain ⟨σ, hm, hh, hall⟩ := processConfig_param cs c i (identityKey c) fw s s' h
        refine ⟨σ, hm, hh, fun M' => ?_⟩
        rw [stepDevice_eq_processConfig cs
          { maps := M', fw_by_model := s.fw_by_model, processed := s.processed }
          i c fw hc hfw hg.1 hg.2]
        exact hall M'
      · rw [stepDevice_skip cs s i c fw hc hfw hg] at h
        cases h
        exact ⟨[], rfl, by simp, fun M' => stepDevice_skip cs _ i c fw hc hfw hg⟩

theorem runSteps_param (cs : List Dict) :
    ∀ (L : List Nat) (s s' : RState), runSteps cs s L = .ok s' →
      ∃ σ : Script, s'.maps = applyScript s.maps σ ∧
        (∀ e ∈ σ, hashableKey e.2.1 = true) ∧
        ∀ M' : List FwMap,
          runSteps cs
            { maps := M', fw_by_model := s.fw_by_model, processed := s.processed } L =
          .ok { maps := applyScript M' σ, fw_by_model := s'.fw_by_model,
                processed := s'.processed } := by
  intro L
  induction L with
  | nil =>
    intro s s' h
    simp only [runSteps, List.foldlM] at h
    cases h
    exact ⟨[], rfl, by simp, fun M' => rfl⟩
  | cons a t ih =>
    intro s s' h
    rw [runSteps_cons] at h
    cases hx : stepDevice cs s a with
    | error e => rw [hx] at h; exact absurd h (by simp)
    | ok s1 =>
    rw [hx] at h
    simp only [ebind_ok] at h
    obtain ⟨σ1, hm1, hh1, hall1⟩ := stepDevice_param cs s a s1 hx
    obtain ⟨σ2, hm2, hh2, hall2⟩ := ih s1 s' h
    refine ⟨σ1 ++ σ2, ?_, ?_, fun M' => ?_⟩
    · rw [applyScript_append, ← hm1, hm2]
    · intro e he
      rcases List.mem_append.mp he with h1 | h1
      · exact hh1 e h1
      · exact hh2 e h1
    · rw [runSteps_cons, hall1 M']
      simp only [ebind_ok]
      rw [applyScript_append]
      exact hall2 (applyScript M' σ1)

theorem sel_cons_eq (j : Nat) (e : Nat × Option Value × FirmwareInfo)
    (σ : Script) (h : e.1 = j) : sel j (e :: σ) = e.2 :: sel j σ := by
  simp [sel, List.filter_cons, h]

theorem sel_cons_ne (j : Nat) (e : Nat × Option Value × FirmwareInfo)
    (σ : Script) (h : ¬ e.1 = j) : sel j (e :: σ) = sel j σ := by
  simp [sel, List.filter_cons, h]

theorem applyScript_get (σ : Script) :
    ∀ (M : List FwMap) (j : Nat),
      (applyScript M σ).get? j = (M.get? j).map (fun m => patch m (sel j σ)) := by
  induction σ with
  | nil =>
    intro M j
    cases h0 : M.get? j <;>
      rw [show applyScript M ([] : Script) = M from rfl, h0] <;> rfl
  | cons e σ' ih =>
    intro M j
    have hstep : applyScript M (e :: σ') =
        applyScript (modifyIdx M e.1 (fun m => odInsert m e.2.1 e.2.2)) σ' := rfl
    rw [hstep, ih]
    by_cases hj : e.1 = j
    · subst hj
      rw [get?_modifyIdx_self, sel_cons_eq e.1 e σ' rfl]
      cases M.get? e.1 <;> simp [patch_cons]
    · rw [get?_modifyIdx_other M e.1 j _ (fun hc => hj hc.symm),
        sel_cons_ne j e σ' hj]

/-- C7: the resolver pass is idempotent — re-running it (with fresh
`fw_by_model`/`processed` state) over the configs and `firmwareInfo` maps a
successful first run produced succeeds and leaves every map unchanged. -/
theorem claim_C7 (cs : List Dict) (s1 : RState)
    (h : crosConfigInit cs = .ok s1) :
    ∃ s2, runSteps cs { maps := s1.maps, fw_by_model := [], processed := [] }
        (List.range cs.length) = .ok s2 ∧ s2.maps = s1.maps := by
  have h' : runSteps cs (initState cs) (List.range cs.length) = .ok s1 := h
  obtain ⟨σ, hm, hh, hall⟩ := runSteps_param cs (List.range cs.length)
    (initState cs) s1 h'
  have hrun2 := hall s1.maps
  refine ⟨_, hrun2, ?_⟩
  apply List.ext_get?
  intro n
  rw [applyScript_get σ s1.maps n, hm, applyScript_get σ (initState cs).maps n]
  have hhash : ∀ p ∈ sel n σ, hashableKey p.1 = true := by
    intro p hp
    simp only [sel, List.mem_map] at hp
    obtain ⟨e, he, rfl⟩ := hp
    exact hh e (List.mem_of_mem_filter he)
  cases h0 : (initState cs).maps.get? n with
  | none => simp
  | some m0 =>
    have hm0 : m0 = [] := by
      simp only [initState, List.get?_map] at h0
      cases h1 : cs.get? n with
      | none => rw [h1] at h0; exact absurd h0 (by simp)
      | some c =>
        rw [h1] at h0
        simp only [Option.map] at h0
        cases h0
        rfl
    subst hm0
    simp only [Option.map]
    rw [patch_absorb (sel n σ) [] hhash]

/-- C7 witness: a one-device document re-resolved. -/
theorem claim_C7_witness :
    ∃ s2, runSteps [devX]
        { maps := (resolvedState [devX]).maps, fw_by_model := [], processed := [] }
        (List.range [devX].length) = .ok s2 ∧
      s2.maps = (resolvedState [devX]).maps :=
  claim_C7 [devX] (resolvedState [devX]) rfl

end CrosConfig
